import Mathlib

/-!
Verification development for the WireGuard mesh VPN repository
(coordinator registry, IPAM allocator, liveness sweeper, agent reconciler).

The Go sources are shallowly embedded: IPv4 addresses are natural numbers
below 2^32 (`net.IP` 4-byte values read big-endian), Go maps become
association lists or boolean characteristic functions, `time.Time` becomes
a natural number of seconds, and the unbounded scan loop in
`IPAllocator.AllocateIP` becomes a fuel-indexed recursion returning `none`
exactly when the Go loop would still be running after `fuel` iterations.
-/

set_option maxRecDepth 8192

/-- A parsed IPv4 CIDR as produced by `net.ParseCIDR`: the base address is
already masked (aligned to the block size) and the whole block fits in the
32-bit address space. `p` is the mask length (`/p`). -/
structure Net where
  base : Nat
  p : Nat
  hp : p ≤ 32
  align : base % 2 ^ (32 - p) = 0
  span : base + 2 ^ (32 - p) ≤ 2 ^ 32

/-- Number of addresses in the block. -/
def Net.size (n : Net) : Nat := 2 ^ (32 - n.p)

/-- `net.IPNet.Contains`: mask the address and compare with the base.
For a 4-byte address `ip < 2^32` and a prefix mask, `ip & mask`
is `ip / size * size`. -/
def containsIP (n : Net) (ip : Nat) : Bool := ip / n.size * n.size = n.base

/-- `isBroadcast` (ipam.go): the byte-wise OR of the base with the inverted
mask; for an aligned base this is `base + (size - 1)`. -/
def broadcastAddr (n : Net) : Nat := n.base + (n.size - 1)

/-- `incrementIP` (ipam.go): byte-wise increment with carry, which on a
4-byte address is addition by one wrapping at 2^32. -/
def incrementIP (ip : Nat) : Nat := (ip + 1) % 2 ^ 32

/-- `IPAllocator` (ipam.go). The Go `allocated map[string]bool` is keyed by
the dotted string form of the address, which is injective on 4-byte
addresses, so it is embedded as a boolean function on the numeric form. -/
structure IPAllocator where
  net : Net
  allocated : Nat → Bool
  nextIP : Nat

/-- `NewIPAllocator`: start the cursor at the first address after the
network address. -/
def NewIPAllocator (n : Net) : IPAllocator :=
  { net := n, allocated := fun _ => false, nextIP := incrementIP n.base }

/-- Outcome of one `AllocateIP` call: the "no more IP addresses available"
error, or a freshly allocated address. -/
inductive AllocResult where
  | exhausted
  | ok (ip : Nat)
deriving DecidableEq

/-- The scan loop of `AllocateIP` (ipam.go lines 41-58), fuel-indexed:
`none` means the Go loop would still be running after `fuel` iterations.
Each iteration: stop with the exhaustion error when the cursor has left the
network; otherwise take the cursor value, advance the cursor, skip the
broadcast address, skip already-allocated addresses, and return the first
free one after marking it allocated. -/
def allocLoop : Nat → IPAllocator → Option (AllocResult × IPAllocator)
  | 0, _ => none
  | fuel + 1, a =>
    if containsIP a.net a.nextIP = false then some (.exhausted, a)
    else if a.nextIP = broadcastAddr a.net then
      allocLoop fuel { a with nextIP := incrementIP a.nextIP }
    else if a.allocated a.nextIP then
      allocLoop fuel { a with nextIP := incrementIP a.nextIP }
    else
      some (.ok a.nextIP,
        { a with nextIP := incrementIP a.nextIP,
                 allocated := fun j => if j = a.nextIP then true else a.allocated j })

/-- `AllocateIP` with enough fuel for one full sweep of the block. -/
def AllocateIP (a : IPAllocator) : Option (AllocResult × IPAllocator) :=
  allocLoop (a.net.size + 2) a

/-- `AllocateSpecificIP` (ipam.go lines 62-81) on an already-parsed address:
fails (`none`) outside the network or when already held; it does not
exclude the network or broadcast address. -/
def AllocateSpecificIP (a : IPAllocator) (ip : Nat) : Option IPAllocator :=
  if containsIP a.net ip = false then none
  else if a.allocated ip then none
  else some { a with allocated := fun j => if j = ip then true else a.allocated j }

/-- `ReleaseIP` (ipam.go lines 84-89): delete from the allocated set. -/
def ReleaseIP (a : IPAllocator) (ip : Nat) : IPAllocator :=
  { a with allocated := fun j => if j = ip then false else a.allocated j }

/-- `IsAllocated` (ipam.go lines 92-97). -/
def IsAllocated (a : IPAllocator) (ip : Nat) : Bool := a.allocated ip

/-- Dotted-quad rendering of an address (`net.IP.String` on 4-byte values). -/
def ipDot (j : Nat) : String :=
  toString (j / 16777216 % 256) ++ "." ++ toString (j / 65536 % 256) ++ "."
    ++ toString (j / 256 % 256) ++ "." ++ toString (j % 256)

theorem size_pos (n : Net) : 0 < n.size := Nat.pos_pow_of_pos _ (by decide)

theorem containsIP_iff (n : Net) (ip : Nat) :
    containsIP n ip = true ↔ n.base ≤ ip ∧ ip < n.base + n.size := by
  unfold containsIP
  rw [decide_eq_true_iff]
  have hdvd : n.size ∣ n.base := Nat.dvd_of_mod_eq_zero n.align
  constructor
  · intro h
    refine ⟨?_, ?_⟩
    · calc n.base = ip / n.size * n.size := h.symm
        _ ≤ ip := Nat.div_mul_le_self _ _
    · have hmod : ip % n.size < n.size := Nat.mod_lt _ (size_pos n)
      have e : ip / n.size * n.size + ip % n.size = ip := Nat.div_add_mod' ip n.size
      rw [h] at e
      rw [← e]
      exact Nat.add_lt_add_left hmod _
  · rintro ⟨h1, h2⟩
    obtain ⟨r, hip, hr2⟩ : ∃ r, ip = n.base + r ∧ r < n.size :=
      ⟨ip - n.base, by omega, by omega⟩
    have hq : n.size * (n.base / n.size) = n.base := Nat.mul_div_cancel' hdvd
    calc ip / n.size * n.size
        = (n.size * (n.base / n.size) + r) / n.size * n.size := by rw [hq, ← hip]
      _ = (n.base / n.size + r / n.size) * n.size := by rw [Nat.mul_add_div (size_pos n)]
      _ = (n.base / n.size + 0) * n.size := by rw [Nat.div_eq_of_lt hr2]
      _ = n.base / n.size * n.size := by rw [Nat.add_zero]
      _ = n.base := Nat.div_mul_cancel hdvd

/-- One `AllocateIP` call keeping only the allocator state (used to chain
calls; when the fuel runs out — the Go loop diverging — the state is kept). -/
def allocOnce (a : IPAllocator) : IPAllocator :=
  match AllocateIP a with
  | some (_, a') => a'
  | none => a

/-- `n` successive `AllocateIP` calls. -/
def allocRepeat : Nat → IPAllocator → IPAllocator
  | 0, a => a
  | m + 1, a => allocOnce (allocRepeat m a)

/-- Where the scan cursor can be: inside `(base, base + size]`, or wrapped
to `0` after stepping past address `2^32 - 1` (only possible when the block
ends exactly at the top of the address space, which for a nonzero prefix
forces `base ≠ 0`). -/
def CursorInv (a : IPAllocator) : Prop :=
  (a.net.base + 1 ≤ a.nextIP ∧ a.nextIP ≤ a.net.base + a.net.size) ∨
  (a.nextIP = 0 ∧ a.net.base + a.net.size = 2 ^ 32 ∧ a.net.base ≠ 0)

/-- Allocator states reachable by any sequence of `AllocateIP` (any fuel),
`AllocateSpecificIP` and `ReleaseIP` calls from a fresh allocator. -/
inductive AllocReach (n : Net) : IPAllocator → Prop
  | init : AllocReach n (NewIPAllocator n)
  | alloc {a : IPAllocator} {fuel : Nat} {r : AllocResult} {a' : IPAllocator} :
      AllocReach n a → allocLoop fuel a = some (r, a') → AllocReach n a'
  | reserve {a : IPAllocator} {ip : Nat} {a' : IPAllocator} :
      AllocReach n a → AllocateSpecificIP a ip = some a' → AllocReach n a'
  | release {a : IPAllocator} (ip : Nat) :
      AllocReach n a → AllocReach n (ReleaseIP a ip)

theorem allocLoop_spec (fuel : Nat) :
    ∀ (a : IPAllocator) (r : AllocResult) (b : IPAllocator),
    allocLoop fuel a = some (r, b) →
    b.net = a.net ∧
    (∀ j, a.allocated j = true → b.allocated j = true) ∧
    (∀ ip, r = .ok ip →
      containsIP a.net ip = true ∧ ip ≠ broadcastAddr a.net ∧ a.allocated ip = false ∧
      b.allocated ip = true ∧ ∀ j, j ≠ ip → b.allocated j = a.allocated j) ∧
    (r = .exhausted →
      (∀ j, b.allocated j = a.allocated j) ∧ containsIP a.net b.nextIP = false) := by
  induction fuel with
  | zero => intro a r b h; simp [allocLoop] at h
  | succ f ih =>
    intro a r b h
    rw [allocLoop] at h
    by_cases hc : containsIP a.net a.nextIP = false
    · rw [if_pos hc] at h
      rw [Option.some.injEq, Prod.mk.injEq] at h
      obtain ⟨hr, hb⟩ := h
      subst hr; subst hb
      refine ⟨rfl, fun j hj => hj, ?_, fun _ => ⟨fun j => rfl, hc⟩⟩
      intro ip hip
      exact absurd hip (by simp)
    · rw [if_neg hc] at h
      have hct : containsIP a.net a.nextIP = true := by
        revert hc; cases containsIP a.net a.nextIP <;> simp
      by_cases hbr : a.nextIP = broadcastAddr a.net
      · rw [if_pos hbr] at h
        obtain ⟨h1, h2, h3, h4⟩ := ih _ _ _ h
        exact ⟨h1, h2, h3, h4⟩
      · rw [if_neg hbr] at h
        by_cases hal : a.allocated a.nextIP
        · rw [if_pos hal] at h
          obtain ⟨h1, h2, h3, h4⟩ := ih _ _ _ h
          exact ⟨h1, h2, h3, h4⟩
        · rw [if_neg hal] at h
          rw [Option.some.injEq, Prod.mk.injEq] at h
          obtain ⟨hr, hb⟩ := h
          subst hr; subst hb
          refine ⟨rfl, ?_, ?_, fun hex => by cases hex⟩
          · intro j hj
            by_cases hji : j = a.nextIP
            · simp [hji]
            · simpa [hji] using hj
          · intro ip hip
            rw [AllocResult.ok.injEq] at hip
            subst hip
            refine ⟨hct, hbr, by simpa using hal, by simp, ?_⟩
            intro j hj
            simp [hj]

theorem base_pos_of_top (n : Net) (hp : 1 ≤ n.p) (htop : n.base + n.size = 2 ^ 32) :
    n.base ≠ 0 := by
  have hsz : n.size ≤ 2 ^ 31 := by
    unfold Net.size
    exact Nat.pow_le_pow_right (by norm_num) (by omega)
  have h31 : (2 : Nat) ^ 31 = 2147483648 := by norm_num
  have h32 : (2 : Nat) ^ 32 = 4294967296 := by norm_num
  omega

theorem cursor_advance (n : Net) (hp : 1 ≤ n.p) (x : Nat)
    (h1 : n.base + 1 ≤ x) (h2 : x < n.base + n.size) :
    (n.base + 1 ≤ incrementIP x ∧ incrementIP x ≤ n.base + n.size) ∨
    (incrementIP x = 0 ∧ n.base + n.size = 2 ^ 32 ∧ n.base ≠ 0) := by
  have hspan : n.base + n.size ≤ 2 ^ 32 := n.span
  by_cases hx : x + 1 < 2 ^ 32
  · left
    unfold incrementIP
    rw [Nat.mod_eq_of_lt hx]
    omega
  · right
    have hx1 : x + 1 = 2 ^ 32 := by omega
    have htop : n.base + n.size = 2 ^ 32 := by omega
    have hz : incrementIP x = 0 := by
      unfold incrementIP
      rw [hx1, Nat.mod_self]
    exact ⟨hz, htop, base_pos_of_top n hp htop⟩

theorem allocLoop_cursor (fuel : Nat) :
    ∀ (a : IPAllocator) (r : AllocResult) (b : IPAllocator),
      1 ≤ a.net.p → CursorInv a → allocLoop fuel a = some (r, b) →
      CursorInv b ∧ ∀ ip, r = .ok ip → a.net.base + 1 ≤ ip ∧ ip < a.net.base + a.net.size := by
  induction fuel with
  | zero => intro a r b _ _ h; simp [allocLoop] at h
  | succ f ih =>
    intro a r b hp hcur h
    rw [allocLoop] at h
    by_cases hc : containsIP a.net a.nextIP = false
    · rw [if_pos hc] at h
      rw [Option.some.injEq, Prod.mk.injEq] at h
      obtain ⟨hr, hb⟩ := h; subst hr; subst hb
      exact ⟨hcur, fun ip hip => absurd hip (by simp)⟩
    · have hct : containsIP a.net a.nextIP = true := by
        revert hc; cases containsIP a.net a.nextIP <;> simp
      rw [if_neg hc] at h
      obtain ⟨hLow, hHigh⟩ := (containsIP_iff _ _).mp hct
      have hge : a.net.base + 1 ≤ a.nextIP := by
        rcases hcur with ⟨h1, _⟩ | ⟨h0, _, hb0⟩
        · exact h1
        · omega
      have hstep : CursorInv { a with nextIP := incrementIP a.nextIP } :=
        cursor_advance a.net hp a.nextIP hge hHigh
      by_cases hbr : a.nextIP = broadcastAddr a.net
      · rw [if_pos hbr] at h
        obtain ⟨c1, c2⟩ := ih { a with nextIP := incrementIP a.nextIP } r b hp hstep h
        exact ⟨c1, c2⟩
      · rw [if_neg hbr] at h
        by_cases hal : a.allocated a.nextIP = true
        · rw [if_pos hal] at h
          obtain ⟨c1, c2⟩ := ih { a with nextIP := incrementIP a.nextIP } r b hp hstep h
          exact ⟨c1, c2⟩
        · rw [if_neg hal] at h
          rw [Option.some.injEq, Prod.mk.injEq] at h
          obtain ⟨hr, hb⟩ := h; subst hr; subst hb
          refine ⟨hstep, ?_⟩
          intro ip hip
          rw [AllocResult.ok.injEq] at hip
          subst hip
          exact ⟨hge, hHigh⟩

theorem allocLoop_finds (d : Nat) :
    ∀ (a : IPAllocator) (fuel ip : Nat),
      a.nextIP + d = ip → a.net.base < a.nextIP →
      containsIP a.net ip = true → ip ≠ broadcastAddr a.net → a.allocated ip = false →
      d + 2 ≤ fuel →
      ∃ j b, allocLoop fuel a = some (.ok j, b) := by
  induction d with
  | zero =>
    intro a fuel ip hd hbase hcont hbr hal hfuel
    obtain ⟨f, rfl⟩ : ∃ f, fuel = f + 1 := ⟨fuel - 1, by omega⟩
    have hip : ip = a.nextIP := by omega
    subst hip
    rw [allocLoop, if_neg (by simp [hcont]), if_neg hbr, if_neg (by simp [hal])]
    exact ⟨a.nextIP, _, rfl⟩
  | succ d ihd =>
    intro a fuel ip hd hbase hcont hbr hal hfuel
    obtain ⟨f, rfl⟩ : ∃ f, fuel = f + 1 := ⟨fuel - 1, by omega⟩
    have hspan : a.net.base + a.net.size ≤ 2 ^ 32 := a.net.span
    obtain ⟨hipLow, hipHigh⟩ := (containsIP_iff _ _).mp hcont
    have hcontNext : containsIP a.net a.nextIP = true := by
      rw [containsIP_iff]; omega
    have hinc : incrementIP a.nextIP = a.nextIP + 1 := by
      unfold incrementIP
      apply Nat.mod_eq_of_lt
      omega
    rw [allocLoop, if_neg (by simp [hcontNext])]
    by_cases hbr2 : a.nextIP = broadcastAddr a.net
    · rw [if_pos hbr2]
      apply ihd
      · show incrementIP a.nextIP + d = ip
        omega
      · show a.net.base < incrementIP a.nextIP
        omega
      · exact hcont
      · exact hbr
      · exact hal
      · omega
    · rw [if_neg hbr2]
      by_cases hal2 : a.allocated a.nextIP = true
      · rw [if_pos hal2]
        apply ihd
        · show incrementIP a.nextIP + d = ip
          omega
        · show a.net.base < incrementIP a.nextIP
          omega
        · exact hcont
        · exact hbr
        · exact hal
        · omega
      · rw [if_neg hal2]
        exact ⟨a.nextIP, _, rfl⟩

theorem allocSpecific_spec (a : IPAllocator) (ip : Nat) (a' : IPAllocator)
    (h : AllocateSpecificIP a ip = some a') :
    a'.net = a.net ∧ a'.nextIP = a.nextIP ∧ containsIP a.net ip = true ∧
    a.allocated ip = false ∧ a'.allocated ip = true ∧
    ∀ j, j ≠ ip → a'.allocated j = a.allocated j := by
  unfold AllocateSpecificIP at h
  by_cases h1 : containsIP a.net ip = false
  · rw [if_pos h1] at h; cases h
  · rw [if_neg h1] at h
    by_cases h2 : a.allocated ip = true
    · rw [if_pos h2] at h; cases h
    · rw [if_neg h2] at h
      rw [Option.some.injEq] at h
      subst h
      have hct : containsIP a.net ip = true := by
        revert h1; cases containsIP a.net ip <;> simp
      refine ⟨rfl, rfl, hct, by simpa using h2, by simp, fun j hj => by simp [hj]⟩

theorem cursorInv_init (n : Net) : CursorInv (NewIPAllocator n) := by
  have hspan : n.base + n.size ≤ 2 ^ 32 := n.span
  have hpos := size_pos n
  unfold CursorInv NewIPAllocator incrementIP
  dsimp only
  by_cases h : n.base + 1 < 2 ^ 32
  · left
    rw [Nat.mod_eq_of_lt h]
    omega
  · right
    have h1 : n.base + 1 = 2 ^ 32 := by omega
    rw [h1, Nat.mod_self]
    exact ⟨rfl, by omega, by omega⟩

theorem allocReach_net (n : Net) (a : IPAllocator) (h : AllocReach n a) : a.net = n := by
  induction h with
  | init => rfl
  | alloc ha hl ih =>
    obtain ⟨h1, _⟩ := allocLoop_spec _ _ _ _ hl
    rw [h1, ih]
  | reserve ha hs ih =>
    obtain ⟨h1, _⟩ := allocSpecific_spec _ _ _ hs
    rw [h1, ih]
  | release ip ha ih => exact ih

theorem allocReach_cursor (n : Net) (hp : 1 ≤ n.p) (a : IPAllocator)
    (h : AllocReach n a) : CursorInv a := by
  induction h with
  | init => exact cursorInv_init n
  | alloc ha hl ih =>
    rename_i a2 fuel r a3
    have hnet := allocReach_net n _ ha
    have hp' : 1 ≤ a2.net.p := by rw [hnet]; exact hp
    exact (allocLoop_cursor _ _ _ _ hp' ih hl).1
  | reserve ha hs ih =>
    obtain ⟨h1, h2, _⟩ := allocSpecific_spec _ _ _ hs
    unfold CursorInv at ih ⊢
    rw [h1, h2]
    exact ih
  | release ip ha ih => exact ih

/-- 10.100.0.0/16 (the default network CIDR). -/
def net16 : Net := ⟨174325760, 16, by norm_num, by norm_num, by norm_num⟩

/-- 10.100.0.0/30. -/
def net30 : Net := ⟨174325760, 30, by norm_num, by norm_num, by norm_num⟩

/-- 0.0.0.0/0: the degenerate CIDR covering the whole address space. -/
def net0 : Net := ⟨0, 0, by norm_num, by norm_num, by norm_num⟩

theorem allocRepeat_net0 (m : Nat) (hm : m ≤ 2 ^ 32 - 2) :
    (allocRepeat m (NewIPAllocator net0)).net = net0 ∧
    (allocRepeat m (NewIPAllocator net0)).nextIP = m + 1 ∧
    ∀ j, (allocRepeat m (NewIPAllocator net0)).allocated j = true ↔ 1 ≤ j ∧ j ≤ m := by
  induction m with
  | zero =>
    refine ⟨rfl, by decide, fun j => ?_⟩
    simp only [allocRepeat, NewIPAllocator]
    simp
    omega
  | succ m ihm =>
    obtain ⟨hnet, hnext, hall⟩ := ihm (by omega)
    have hfree : (allocRepeat m (NewIPAllocator net0)).allocated (m + 1) ≠ true := by
      intro hc
      have := (hall _).mp hc
      omega
    have hcont : containsIP net0 (m + 1) = true := by
      rw [containsIP_iff]
      have : net0.base = 0 := rfl
      have hsz : net0.size = 2 ^ 32 := rfl
      omega
    have hbr : m + 1 ≠ broadcastAddr net0 := by
      have : broadcastAddr net0 = 2 ^ 32 - 1 := rfl
      omega
    have hcomp : AllocateIP (allocRepeat m (NewIPAllocator net0)) =
        some (.ok (m + 1),
          ⟨net0,
           fun j =>
             if j = m + 1 then true
             else (allocRepeat m (NewIPAllocator net0)).allocated j,
           incrementIP (m + 1)⟩) := by
      unfold AllocateIP
      rw [hnet]
      rw [show net0.size + 2 = (2 ^ 32 + 1) + 1 from rfl]
      rw [allocLoop, hnet, hnext]
      rw [if_neg (by simp [hcont]), if_neg hbr, if_neg hfree]
    rw [allocRepeat]
    unfold allocOnce
    rw [hcomp]
    refine ⟨rfl, ?_, fun j => ?_⟩
    · show incrementIP (m + 1) = m + 1 + 1
      unfold incrementIP
      exact Nat.mod_eq_of_lt (by omega)
    · show (if j = m + 1 then true else (allocRepeat m (NewIPAllocator net0)).allocated j) = true ↔ _
      by_cases hj : j = m + 1
      · subst hj
        simp
      · rw [if_neg hj, hall j]
        omega


theorem allocLoop_skip_step (fuel : Nat) (n : Net) (g : Nat → Bool) (x v : Nat)
    (h1 : containsIP n x = true) (h2 : x = broadcastAddr n)
    (h3 : incrementIP x = v) :
    allocLoop (fuel + 1) ⟨n, g, x⟩ = allocLoop fuel ⟨n, g, v⟩ := by
  rw [allocLoop, if_neg (by simp [h1]), if_pos h2, h3]

theorem allocLoop_ret_step (fuel : Nat) (n : Net) (g : Nat → Bool) (x v : Nat)
    (h1 : containsIP n x = true) (h2 : x ≠ broadcastAddr n) (h3 : g x = false)
    (h4 : incrementIP x = v) :
    allocLoop (fuel + 1) ⟨n, g, x⟩ =
      some (.ok x, ⟨n, fun j => if j = x then true else g j, v⟩) := by
  rw [allocLoop, if_neg (by simp [h1]), if_neg h2, if_neg (by simp [h3]), h4]

/-- Claim C8, counterexample: over the CIDR 0.0.0.0/0 the statement
"AllocateNext never returns the network address" fails on the code. After
2^32 - 2 allocations the cursor sits on the broadcast address
255.255.255.255; the skip step wraps the cursor (byte-wise increment) to
0.0.0.0 — the network address of the block — and the very next AllocateIP
call hands it out. -/
theorem C8_counterexample :
    net0.base = 0 ∧
    (allocLoop 3 (allocRepeat (2 ^ 32 - 2) (NewIPAllocator net0))).map (fun r => r.1)
      = some (.ok 0) := by
  refine ⟨rfl, ?_⟩
  obtain ⟨hnet, hnext, hall⟩ := allocRepeat_net0 (2 ^ 32 - 2) (le_refl _)
  revert hnet hnext hall
  generalize allocRepeat (2 ^ 32 - 2) (NewIPAllocator net0) = A
  obtain ⟨Anet, Aalloc, Anext⟩ := A
  intro hnet hnext hall
  have hnet' : Anet = net0 := hnet
  have hnext' : Anext = 2 ^ 32 - 2 + 1 := hnext
  have hall' : ∀ j, Aalloc j = true ↔ 1 ≤ j ∧ j ≤ 2 ^ 32 - 2 := hall
  subst hnet'
  subst hnext'
  have hfree0 : Aalloc 0 = false := by
    cases hb : Aalloc 0 with
    | false => rfl
    | true => exact absurd ((hall' 0).mp hb) (by omega)
  have e1 := allocLoop_skip_step 2 net0 Aalloc (2 ^ 32 - 2 + 1) 0
    (by decide) (by decide) (by decide)
  have e2 := allocLoop_ret_step 1 net0 Aalloc 0 1
    (by decide) (by decide) hfree0 (by decide)
  show (allocLoop (2 + 1) (⟨net0, Aalloc, 2 ^ 32 - 2 + 1⟩ : IPAllocator)).map (fun r => r.1)
      = some (.ok 0)
  rw [e1]
  show (allocLoop (1 + 1) (⟨net0, Aalloc, 0⟩ : IPAllocator)).map (fun r => r.1)
      = some (.ok 0)
  rw [e2]
  rfl

/-- Claim C8 (amended): in an empty allocator for 10.100.0.0/16 the first
three AllocateIP calls return 10.100.0.1, 10.100.0.2, 10.100.0.3 in that
order; AllocateIP never returns the broadcast address (over any CIDR and
any state); and over any CIDR of nonzero prefix length it never returns the
network address from any reachable allocator state. (For prefix length 0 —
0.0.0.0/0 — the network address is eventually returned, see the
counterexample.) -/
theorem C8_theorem :
    ((AllocateIP (NewIPAllocator net16)).map (fun r => r.1) = some (.ok 174325761) ∧
     (AllocateIP (allocOnce (NewIPAllocator net16))).map (fun r => r.1)
       = some (.ok 174325762) ∧
     (AllocateIP (allocOnce (allocOnce (NewIPAllocator net16)))).map (fun r => r.1)
       = some (.ok 174325763) ∧
     ipDot 174325761 = "10.100.0.1" ∧ ipDot 174325762 = "10.100.0.2" ∧
     ipDot 174325763 = "10.100.0.3") ∧
    (∀ (fuel : Nat) (a : IPAllocator) (ip : Nat) (b : IPAllocator),
      allocLoop fuel a = some (.ok ip, b) → ip ≠ broadcastAddr a.net) ∧
    (∀ (n : Net) (a : IPAllocator) (fuel ip : Nat) (b : IPAllocator),
      1 ≤ n.p → AllocReach n a → allocLoop fuel a = some (.ok ip, b) → ip ≠ n.base) := by
  refine ⟨by decide, ?_, ?_⟩
  · intro fuel a ip b h
    exact ((allocLoop_spec fuel a _ b h).2.2.1 ip rfl).2.1
  · intro n a fuel ip b hp hr h
    have hnet := allocReach_net n a hr
    have hcur := allocReach_cursor n hp a hr
    have hb := (allocLoop_cursor fuel a _ b (by rw [hnet]; exact hp) hcur h).2 ip rfl
    rw [hnet] at hb
    omega

theorem C8_witness :
    174325761 ≠ broadcastAddr (NewIPAllocator net16).net ∧ 174325761 ≠ net16.base := by
  have hstep := allocLoop_ret_step 2 net16 (fun _ => false) 174325761 174325762
    (by decide) (by decide) rfl (by decide)
  constructor
  · exact C8_theorem.2.1 3 (NewIPAllocator net16) 174325761 _ hstep
  · exact C8_theorem.2.2 net16 (NewIPAllocator net16) 3 174325761 _ (by decide)
      AllocReach.init hstep

/-- Claim C3, counterexample: in 10.100.0.0/30, allocate 10.100.0.1 and
10.100.0.2 (exhausting the block's two usable addresses), release
10.100.0.1; the released address is free, in-network and not the broadcast,
yet the next AllocateIP reports address exhaustion — the cursor never wraps
back, so the gap is not filled. -/
theorem C3_counterexample :
    IsAllocated (allocOnce (allocOnce (NewIPAllocator net30))) 174325761 = true ∧
    IsAllocated (ReleaseIP (allocOnce (allocOnce (NewIPAllocator net30))) 174325761)
      174325761 = false ∧
    containsIP net30 174325761 = true ∧
    174325761 ≠ broadcastAddr net30 ∧
    (AllocateIP (ReleaseIP (allocOnce (allocOnce (NewIPAllocator net30))) 174325761)).map
      (fun r => r.1) = some .exhausted := by decide

/-- Claim C3 (amended): a released address is handed out again by a later
AllocateIP only while the scan cursor has not passed it: if the cursor is
at or below a free usable address of the network, AllocateIP succeeds
(given fuel covering the distance). ReleaseIP never moves the cursor, and
once the cursor has left the network AllocateIP reports AddressExhausted
forever — released gaps behind the cursor are never refilled. -/
theorem C3_theorem :
    (∀ (a : IPAllocator) (ip fuel : Nat),
      a.net.base < a.nextIP → a.nextIP ≤ ip →
      containsIP a.net ip = true → ip ≠ broadcastAddr a.net → a.allocated ip = false →
      ip + 2 ≤ a.nextIP + fuel →
      ∃ j b, allocLoop fuel a = some (.ok j, b)) ∧
    (∀ (a : IPAllocator) (ip : Nat),
      (ReleaseIP a ip).nextIP = a.nextIP ∧ (ReleaseIP a ip).allocated ip = false) ∧
    (∀ (a : IPAllocator) (fuel : Nat),
      containsIP a.net a.nextIP = false → 1 ≤ fuel →
      allocLoop fuel a = some (.exhausted, a)) := by
  refine ⟨?_, ?_, ?_⟩
  · intro a ip fuel h1 h2 h3 h4 h5 h6
    exact allocLoop_finds (ip - a.nextIP) a fuel ip (by omega) h1 h3 h4 h5 (by omega)
  · intro a ip
    exact ⟨rfl, by simp [ReleaseIP]⟩
  · intro a fuel h1 h2
    obtain ⟨f, rfl⟩ : ∃ f, fuel = f + 1 := ⟨fuel - 1, by omega⟩
    rw [allocLoop, if_pos h1]

theorem C3_witness :
    (allocLoop 6 (ReleaseIP (NewIPAllocator net30) 174325761)).isSome = true ∧
    (ReleaseIP (NewIPAllocator net30) 174325762).nextIP = (NewIPAllocator net30).nextIP ∧
    allocLoop 2 (⟨net30, fun _ => false, 174325764⟩ : IPAllocator) =
      some (.exhausted, ⟨net30, fun _ => false, 174325764⟩) := by
  refine ⟨?_, ?_, ?_⟩
  · obtain ⟨j, b, h⟩ := C3_theorem.1 (ReleaseIP (NewIPAllocator net30) 174325761) 174325761 6
      (by decide) (by decide) (by decide) (by decide) (by decide) (by decide)
    rw [h]
    rfl
  · exact (C3_theorem.2.1 (NewIPAllocator net30) 174325762).1
  · exact C3_theorem.2.2 (⟨net30, fun _ => false, 174325764⟩ : IPAllocator) 2
      (by decide) (by decide)

/-- Claim C10: AllocateSpecificIP succeeds on any (parsed) address that the
network contains and that is not already held — the network and broadcast
addresses are not excluded — and afterwards IsAllocated on that address is
true. -/
theorem C10_theorem (a : IPAllocator) (ip : Nat)
    (hin : containsIP a.net ip = true) (hfree : a.allocated ip = false) :
    ∃ a', AllocateSpecificIP a ip = some a' ∧ IsAllocated a' ip = true := by
  refine ⟨{ a with allocated := fun j => if j = ip then true else a.allocated j }, ?_, ?_⟩
  · unfold AllocateSpecificIP
    rw [if_neg (by simp [hin]), if_neg (by simp [hfree])]
  · simp [IsAllocated]

theorem C10_witness :
    (AllocateSpecificIP (NewIPAllocator net30) 174325760).isSome = true ∧
    (AllocateSpecificIP (NewIPAllocator net30) 174325763).isSome = true ∧
    net30.base = 174325760 ∧ broadcastAddr net30 = 174325763 := by
  obtain ⟨a1, h1, _⟩ := C10_theorem (NewIPAllocator net30) 174325760 (by decide) (by decide)
  obtain ⟨a2, h2, _⟩ := C10_theorem (NewIPAllocator net30) 174325763 (by decide) (by decide)
  rw [h1, h2]
  exact ⟨rfl, rfl, by decide, by decide⟩

/-- The coordinator's heartbeat timeout, in seconds (`2 * time.Minute`). -/
def HeartbeatTimeout : Nat := 120

/-- `protocol.Peer`. `VirtualIP` is kept in numeric form (the Go code holds
the dotted string; `ipDot` is injective on 4-byte addresses). Timestamps
are seconds. -/
structure Peer where
  id : String
  publicKey : String
  virtualIP : Nat
  endpoint : String
  hostname : String
  os : String
  allowedIPs : List String
  exitNode : Bool
  lastHeartbeat : Nat
  online : Bool
deriving DecidableEq

/-- `protocol.RegisterRequest` (`request_ip` and `allowed_ips` are carried
but never read by the server handler, as in the source). -/
structure RegisterRequest where
  publicKey : String
  hostname : String
  os : String
  endpoint : String
  requestIP : Bool
  exitNode : Bool
  allowedIPs : List String
deriving DecidableEq

/-- `protocol.RegisterResponse` (`assignedIP` numeric, see `Peer`). -/
structure RegisterResponse where
  success : Bool
  error : String
  assignedIP : Nat
  networkCIDR : String
  peerId : String
  serverPublicKey : String
deriving DecidableEq

/-- `protocol.HeartbeatRequest`. -/
structure HeartbeatRequest where
  peerId : String
  endpoint : String
deriving DecidableEq

/-- `protocol.HeartbeatResponse`. -/
structure HeartbeatResponse where
  success : Bool
  error : String
deriving DecidableEq

/-- `server.Server`: the two Go maps become association lists (`peers` is
the id-keyed table as a list of records, `peersByKey` maps public key to
id), and the JSON store file becomes the list of persisted records. -/
structure Server where
  net : Net
  alloc : IPAllocator
  peers : List Peer
  peersByKey : List (String × String)
  store : List Peer
  publicKey : String

/-- `net.IPNet.String` for the network. -/
def cidrStr (n : Net) : String := ipDot n.base ++ "/" ++ toString n.p

/-- Go map read `m[k]`. -/
def lookupKV (m : List (String × String)) (k : String) : Option String :=
  (m.find? (fun e => e.1 == k)).map (fun e => e.2)

/-- Go map write `m[k] = v`. -/
def insertKV (m : List (String × String)) (k v : String) : List (String × String) :=
  if m.any (fun e => e.1 == k) then m.map (fun e => if e.1 == k then (k, v) else e)
  else m ++ [(k, v)]

/-- Go map read `s.peers[pid]` on the id-keyed table. -/
def findById (l : List Peer) (pid : String) : Option Peer :=
  l.find? (fun q => q.id == pid)

/-- `PeerStore.SavePeer`: replace the record with the same id, else append.
The same function models a Go map write `s.peers[q.id] = q` (and the
in-place mutation of the record a map entry points to). -/
def savePeer (l : List Peer) (q : Peer) : List Peer :=
  if l.any (fun r => r.id == q.id) then l.map (fun r => if r.id == q.id then q else r)
  else l ++ [q]

/-- A fresh server with an empty store (`NewServer` on first boot). -/
def initServer (n : Net) (pub : String) : Server :=
  { net := n, alloc := NewIPAllocator n, peers := [], peersByKey := [], store := [],
    publicKey := pub }

/-- The fresh `protocol.Peer` built by `handleRegister` for a new key
(server.go lines 154-170): allowed IPs are the /32 of the assigned address,
plus 0.0.0.0/0 when the peer registers as an exit node. -/
def mkNewPeer (req : RegisterRequest) (newId : String) (ip : Nat) (now : Nat) : Peer :=
  { id := newId, publicKey := req.publicKey, virtualIP := ip, endpoint := req.endpoint,
    hostname := req.hostname, os := req.os,
    allowedIPs := [ipDot ip ++ "/32"] ++ (if req.exitNode then ["0.0.0.0/0"] else []),
    exitNode := req.exitNode, lastHeartbeat := now, online := true }

/-- `handleRegister` (server.go lines 103-191). `newId` stands for the
`generatePeerID()` result (time-derived in Go; its doc comment promises
uniqueness, which the step relation carries as a side condition), `now`
for `time.Now()`. The fuel-out case of the allocator scan (the Go loop
still running, so no response would ever be produced) is modelled as a
failure response leaving the state unchanged. -/
def handleRegister (s : Server) (req : RegisterRequest) (newId : String) (now : Nat) :
    RegisterResponse × Server :=
  match lookupKV s.peersByKey req.publicKey with
  | some pid =>
    match findById s.peers pid with
    | some peer =>
      let resp : RegisterResponse :=
        { success := true, error := "", assignedIP := peer.virtualIP,
          networkCIDR := cidrStr s.net, peerId := peer.id, serverPublicKey := s.publicKey }
      let upd : Peer :=
        { peer with hostname := req.hostname, os := req.os, endpoint := req.endpoint,
                    lastHeartbeat := now, online := true }
      (resp, { s with peers := savePeer s.peers upd, store := savePeer s.store upd })
    | none =>
      -- Desynchronized indices: the Go code would dereference a nil map
      -- entry here; unreachable while the indices are coherent.
      ({ success := false, error := "corrupt index", assignedIP := 0,
         networkCIDR := cidrStr s.net, peerId := "", serverPublicKey := s.publicKey }, s)
  | none =>
    match AllocateIP s.alloc with
    | some (.ok ip, alloc') =>
      let peer : Peer := mkNewPeer req newId ip now
      ({ success := true, error := "", assignedIP := ip, networkCIDR := cidrStr s.net,
         peerId := newId, serverPublicKey := s.publicKey },
       { s with alloc := alloc',
                peers := savePeer s.peers peer,
                peersByKey := insertKV s.peersByKey req.publicKey newId,
                store := savePeer s.store peer })
    | some (.exhausted, alloc') =>
      ({ success := false, error := "no more IP addresses available", assignedIP := 0,
         networkCIDR := cidrStr s.net, peerId := "", serverPublicKey := s.publicKey },
       { s with alloc := alloc' })
    | none =>
      ({ success := false, error := "allocator scan unfinished", assignedIP := 0,
         networkCIDR := cidrStr s.net, peerId := "", serverPublicKey := s.publicKey }, s)

/-- `handleHeartbeat` (server.go lines 194-232). -/
def handleHeartbeat (s : Server) (req : HeartbeatRequest) (now : Nat) :
    HeartbeatResponse × Server :=
  match findById s.peers req.peerId with
  | none => ({ success := false, error := "Peer not found" }, s)
  | some peer =>
    let upd : Peer :=
      { peer with lastHeartbeat := now, online := true,
                  endpoint := if req.endpoint ≠ "" then req.endpoint else peer.endpoint }
    ({ success := true, error := "" },
     { s with peers := savePeer s.peers upd, store := savePeer s.store upd })

/-- `handlePeerList` (server.go lines 235-269): `none` is the 404 for an
unknown caller; otherwise every other peer is returned (no online filter
appears in the source). -/
def handlePeerList (s : Server) (pid : String) : Option (List Peer) :=
  match findById s.peers pid with
  | none => none
  | some _ => some (s.peers.filter (fun q => q.id != pid))

/-- One peer's update in the sweeper (`cleanupRoutine` body, server.go
lines 280-288): `now.Sub(lastHeartbeat) > HeartbeatTimeout` and `Online`
guard the single mutation `Online = false`. -/
def sweepPeer (now : Nat) (q : Peer) : Peer :=
  if HeartbeatTimeout < now - q.lastHeartbeat then
    if q.online then { q with online := false } else q
  else q

/-- One pass of `cleanupRoutine` at time `now`. Each flipped record is
persisted with `SavePeer` (replace-by-id), so on the id-keyed store the
pass is the same pointwise update. -/
def cleanupPass (s : Server) (now : Nat) : Server :=
  { s with peers := s.peers.map (sweepPeer now), store := s.store.map (sweepPeer now) }

/-- One rehydration step in `loadPeersFromStore`: reserve a stored peer's
address, ignoring (logging) a failure. -/
def reserveOne (acc : IPAllocator) (q : Peer) : IPAllocator :=
  match AllocateSpecificIP acc q.virtualIP with
  | some acc2 => acc2
  | none => acc

/-- IPAM rehydration in `loadPeersFromStore` over the whole store. -/
def reserveAll (a : IPAllocator) (l : List Peer) : IPAllocator :=
  l.foldl reserveOne a

/-- Coordinator restart: `NewServer` with the surviving store followed by
`loadPeersFromStore` (server.go lines 295-316): rebuild both maps by
iterated map writes and re-reserve every stored address. -/
def restartServer (s : Server) : Server :=
  { net := s.net, publicKey := s.publicKey,
    alloc := reserveAll (NewIPAllocator s.net) s.store,
    peers := s.store.foldl (fun m q => savePeer m q) [],
    peersByKey := s.store.foldl (fun m q => insertKV m q.publicKey q.id) [],
    store := s.store }

/-- One observable transition of the coordinator. The register step carries
the uniqueness of `generatePeerID` (its documented contract) as a side
condition: when the key is new, the minted id is not already in the table. -/
inductive Step : Server → Server → Prop
  | register (s : Server) (req : RegisterRequest) (newId : String) (now : Nat)
      (hfresh : lookupKV s.peersByKey req.publicKey = none →
        findById s.peers newId = none) :
      Step s (handleRegister s req newId now).2
  | heartbeat (s : Server) (req : HeartbeatRequest) (now : Nat) :
      Step s (handleHeartbeat s req now).2
  | sweep (s : Server) (now : Nat) : Step s (cleanupPass s now)
  | restart (s : Server) : Step s (restartServer s)

/-- Reflexive-transitive closure of `Step`. -/
inductive Steps : Server → Server → Prop
  | refl (s : Server) : Steps s s
  | tail {s t u : Server} : Steps s t → Step t u → Steps s u

theorem Steps.trans {s t u : Server} (h1 : Steps s t) (h2 : Steps t u) : Steps s u := by
  induction h2 with
  | refl => exact h1
  | tail h2a hstep ih => exact Steps.tail ih hstep

theorem find?_field_of_mem {α β : Type} [BEq β] [LawfulBEq β] (f : α → β) (l : List α)
    (hnd : (l.map f).Nodup) {x : α} (hx : x ∈ l) :
    l.find? (fun y => f y == f x) = some x := by
  induction l with
  | nil => cases hx
  | cons r t ih =>
    rw [List.map_cons, List.nodup_cons] at hnd
    rcases List.mem_cons.mp hx with rfl | hxt
    · simp [List.find?_cons]
    · have hne : (f r == f x) = false := by
        rw [beq_eq_false_iff_ne]
        intro he
        exact hnd.1 (he ▸ List.mem_map.mpr ⟨x, hxt, rfl⟩)
      rw [List.find?_cons_of_neg _ (by simp [hne]), ih hnd.2 hxt]

theorem findById_some {l : List Peer} {pid : String} {q : Peer}
    (h : findById l pid = some q) : q ∈ l ∧ q.id = pid := by
  unfold findById at h
  have hmem := List.mem_of_find?_eq_some h
  have hp := List.find?_some h
  simp only [beq_iff_eq] at hp
  exact ⟨hmem, hp⟩

theorem findById_none {l : List Peer} {pid : String}
    (h : findById l pid = none) : ∀ q ∈ l, q.id ≠ pid := by
  unfold findById at h
  intro q hq
  have := List.find?_eq_none.mp h q hq
  simpa using this

theorem findById_of_mem {l : List Peer} (hnd : (l.map (fun q => q.id)).Nodup)
    {q : Peer} (hq : q ∈ l) : findById l q.id = some q := by
  unfold findById
  exact find?_field_of_mem (fun p => p.id) l hnd hq

theorem savePeer_fresh {l : List Peer} {q : Peer} (h : ∀ r ∈ l, r.id ≠ q.id) :
    savePeer l q = l ++ [q] := by
  unfold savePeer
  rw [if_neg]
  simp only [List.any_eq_true, beq_iff_eq, not_exists]
  intro r
  rw [not_and]
  exact h r

theorem savePeer_present {l : List Peer} {q : Peer} (h : ∃ r ∈ l, r.id = q.id) :
    savePeer l q = l.map (fun r => if r.id == q.id then q else r) := by
  unfold savePeer
  rw [if_pos]
  simp only [List.any_eq_true, beq_iff_eq]
  exact h

theorem savePeer_map_eq {α : Type} {l : List Peer} {q : Peer} (f : Peer → α)
    (hpres : ∃ r ∈ l, r.id = q.id)
    (hf : ∀ r ∈ l, r.id = q.id → f r = f q) :
    (savePeer l q).map f = l.map f := by
  rw [savePeer_present hpres, List.map_map]
  apply List.map_congr_left
  intro r hr
  by_cases hid : (r.id == q.id) = true
  · simp only [Function.comp_apply, hid, if_pos]
    exact (hf r hr (by simpa using hid)).symm
  · have hne : r.id ≠ q.id := by simpa using hid
    simp [Function.comp_apply, hid, hne]

theorem mem_savePeer {l : List Peer} {q r : Peer} (h : r ∈ savePeer l q) :
    r = q ∨ (r ∈ l ∧ r.id ≠ q.id) := by
  unfold savePeer at h
  split at h
  · obtain ⟨x, hx, hxr⟩ := List.mem_map.mp h
    by_cases hid : (x.id == q.id) = true
    · left
      rw [if_pos hid] at hxr
      exact hxr.symm
    · right
      rw [if_neg hid] at hxr
      subst hxr
      exact ⟨hx, by simpa using hid⟩
  · rename_i hany
    rcases List.mem_append.mp h with hl | hr
    · right
      refine ⟨hl, fun he => hany ?_⟩
      simp only [List.any_eq_true, beq_iff_eq]
      exact ⟨r, hl, he⟩
    · left
      simpa using hr

theorem savePeer_mem_self {l : List Peer} {q : Peer} : q ∈ savePeer l q := by
  unfold savePeer
  split
  · rename_i hany
    simp only [List.any_eq_true, beq_iff_eq] at hany
    obtain ⟨r, hr, hid⟩ := hany
    exact List.mem_map.mpr ⟨r, hr, by rw [if_pos (by simpa using hid)]⟩
  · simp

theorem mem_savePeer_of_mem {l : List Peer} {q r : Peer} (hr : r ∈ l) (hne : r.id ≠ q.id) :
    r ∈ savePeer l q := by
  unfold savePeer
  split
  · exact List.mem_map.mpr ⟨r, hr, by rw [if_neg (by simpa using hne)]⟩
  · exact List.mem_append.mpr (Or.inl hr)

theorem lookupKV_none {m : List (String × String)} {k : String}
    (h : lookupKV m k = none) : ∀ e ∈ m, e.1 ≠ k := by
  unfold lookupKV at h
  have hf : m.find? (fun e => e.1 == k) = none := by
    cases hf2 : m.find? (fun e => e.1 == k) with
    | none => rfl
    | some e => rw [hf2] at h; simp at h
  intro e he
  have := List.find?_eq_none.mp hf e he
  simpa using this

theorem lookupKV_some {m : List (String × String)} {k pid : String}
    (h : lookupKV m k = some pid) : ∃ e ∈ m, e.1 = k ∧ e.2 = pid := by
  unfold lookupKV at h
  rw [Option.map_eq_some'] at h
  obtain ⟨e, he, hpid⟩ := h
  have hmem := List.mem_of_find?_eq_some he
  have hp := List.find?_some he
  simp only [beq_iff_eq] at hp
  exact ⟨e, hmem, hp, hpid⟩

theorem insertKV_fresh {m : List (String × String)} {k v : String}
    (h : ∀ e ∈ m, e.1 ≠ k) : insertKV m k v = m ++ [(k, v)] := by
  unfold insertKV
  rw [if_neg]
  simp only [List.any_eq_true, beq_iff_eq, not_exists]
  intro e
  rw [not_and]
  exact h e

theorem lookupKV_append_right {m : List (String × String)} {k v : String}
    (h : ∀ e ∈ m, e.1 ≠ k) : lookupKV (m ++ [(k, v)]) k = some v := by
  unfold lookupKV
  rw [List.find?_append]
  have h1 : m.find? (fun e => e.1 == k) = none := by
    rw [List.find?_eq_none]
    intro e he
    simpa using h e he
  rw [h1]
  simp [List.find?_cons]

theorem lookupKV_append_left {m : List (String × String)} {k k' v : String}
    (hne : k' ≠ k) : lookupKV (m ++ [(k, v)]) k' = lookupKV m k' := by
  unfold lookupKV
  rw [List.find?_append]
  cases hf : m.find? (fun e => e.1 == k') with
  | some e => simp
  | none =>
    simp only [Option.none_or]
    rw [List.find?_cons_of_neg _ (by simpa using fun he => (hne he.symm).elim)]
    simp [List.find?_nil]

theorem foldl_savePeer_from (l : List Peer) :
    ∀ acc : List Peer,
      (∀ q ∈ l, ∀ r ∈ acc, r.id ≠ q.id) → (l.map (fun q => q.id)).Nodup →
      l.foldl (fun m q => savePeer m q) acc = acc ++ l := by
  induction l with
  | nil => intro acc _ _; simp
  | cons q t ih =>
    intro acc hdisj hnd
    rw [List.map_cons, List.nodup_cons] at hnd
    rw [List.foldl_cons]
    rw [savePeer_fresh (fun r hr => hdisj q (List.mem_cons_self q t) r hr)]
    rw [ih (acc ++ [q]) ?_ hnd.2]
    · simp
    · intro x hx r hr
      rcases List.mem_append.mp hr with hra | hrq
      · exact hdisj x (List.mem_cons_of_mem q hx) r hra
      · have : r = q := by simpa using hrq
        subst this
        intro he
        exact hnd.1 (he ▸ List.mem_map.mpr ⟨x, hx, rfl⟩)

theorem foldl_insertKV_from (l : List Peer) :
    ∀ acc : List (String × String),
      (∀ q ∈ l, ∀ e ∈ acc, e.1 ≠ q.publicKey) → (l.map (fun q => q.publicKey)).Nodup →
      l.foldl (fun m q => insertKV m q.publicKey q.id) acc
        = acc ++ l.map (fun q => (q.publicKey, q.id)) := by
  induction l with
  | nil => intro acc _ _; simp
  | cons q t ih =>
    intro acc hdisj hnd
    rw [List.map_cons, List.nodup_cons] at hnd
    rw [List.foldl_cons]
    rw [insertKV_fresh (fun e he => hdisj q (List.mem_cons_self q t) e he)]
    rw [ih (acc ++ [(q.publicKey, q.id)]) ?_ hnd.2]
    · simp
    · intro x hx e he
      rcases List.mem_append.mp he with hea | heq
      · exact hdisj x (List.mem_cons_of_mem q hx) e hea
      · have he2 : e = (q.publicKey, q.id) := by simpa using heq
        subst he2
        intro hke
        apply hnd.1
        have hqx : q.publicKey = x.publicKey := hke
        rw [hqx]
        exact List.mem_map.mpr ⟨x, hx, rfl⟩

theorem mem_id_unique {l : List Peer} (hnd : (l.map (fun q => q.id)).Nodup)
    {r p : Peer} (hr : r ∈ l) (hp : p ∈ l) (he : r.id = p.id) : r = p := by
  have h1 := findById_of_mem hnd hr
  have h2 := findById_of_mem hnd hp
  rw [he, h2] at h1
  exact (Option.some.inj h1).symm

theorem reserveOne_eq {acc b : IPAllocator} {q : Peer}
    (h : AllocateSpecificIP acc q.virtualIP = some b) : reserveOne acc q = b := by
  unfold reserveOne
  rw [h]

theorem reserveAll_spec (l : List Peer) :
    ∀ a : IPAllocator,
      (∀ q ∈ l, containsIP a.net q.virtualIP = true) →
      (∀ q ∈ l, a.allocated q.virtualIP = false) →
      (l.map (fun q => q.virtualIP)).Nodup →
      (reserveAll a l).net = a.net ∧ (reserveAll a l).nextIP = a.nextIP ∧
      (∀ j, (reserveAll a l).allocated j = true ↔
        a.allocated j = true ∨ j ∈ l.map (fun q => q.virtualIP)) := by
  induction l with
  | nil =>
    intro a _ _ _
    exact ⟨rfl, rfl, fun j => by simp [reserveAll]⟩
  | cons q t ih =>
    intro a hin hfree hnd
    rw [List.map_cons, List.nodup_cons] at hnd
    have hstep : AllocateSpecificIP a q.virtualIP = some
        { a with allocated := fun j => if j = q.virtualIP then true else a.allocated j } := by
      unfold AllocateSpecificIP
      rw [if_neg (by simp [hin q (List.mem_cons_self q t)]),
          if_neg (by simp [hfree q (List.mem_cons_self q t)])]
    rw [show reserveAll a (q :: t) = reserveAll
        { a with allocated := fun j => if j = q.virtualIP then true else a.allocated j } t
      from by unfold reserveAll; rw [List.foldl_cons, reserveOne_eq hstep]]
    obtain ⟨ihn, ihx, iha⟩ := ih
      { a with allocated := fun j => if j = q.virtualIP then true else a.allocated j }
      (fun r hr => hin r (List.mem_cons_of_mem q hr))
      (fun r hr => by
        have hne : r.virtualIP ≠ q.virtualIP := fun he => hnd.1 (by
          rw [← he]
          exact List.mem_map.mpr ⟨r, hr, rfl⟩)
        show (if r.virtualIP = q.virtualIP then true else a.allocated r.virtualIP) = false
        rw [if_neg hne]
        exact hfree r (List.mem_cons_of_mem q hr))
      hnd.2
    refine ⟨ihn, ihx, fun j => ?_⟩
    rw [iha j]
    show ((if j = q.virtualIP then true else a.allocated j) = true ∨ _) ↔ _
    by_cases hj : j = q.virtualIP
    · subst hj
      simp
    · rw [if_neg hj]
      simp [hj]

/-- The registry's internal coherence, maintained by every transition: the
two indices agree, records are unique by id, key and address, every address
is in-network and not the broadcast, the allocator covers every assigned
address, and the persistent store mirrors the table. -/
structure InvCore (s : Server) : Prop where
  ids_nodup : (s.peers.map (fun q => q.id)).Nodup
  keys_nodup : (s.peers.map (fun q => q.publicKey)).Nodup
  vips_nodup : (s.peers.map (fun q => q.virtualIP)).Nodup
  vip_in : ∀ q ∈ s.peers,
    containsIP s.net q.virtualIP = true ∧ q.virtualIP ≠ broadcastAddr s.net
  byKey_sound : ∀ k pid, lookupKV s.peersByKey k = some pid →
    ∃ q, q ∈ s.peers ∧ q.publicKey = k ∧ q.id = pid
  byKey_complete : ∀ q ∈ s.peers, lookupKV s.peersByKey q.publicKey = some q.id
  alloc_covers : ∀ q ∈ s.peers, s.alloc.allocated q.virtualIP = true
  store_eq : s.store = s.peers
  alloc_net : s.alloc.net = s.net

theorem invCore_init (n : Net) (pub : String) : InvCore (initServer n pub) := by
  refine ⟨?_, ?_, ?_, ?_, ?_, ?_, ?_, rfl, rfl⟩ <;>
    simp [initServer, lookupKV, List.find?_nil]

theorem invCore_update {s : Server} (inv : InvCore s) {peer upd : Peer}
    (hmem : peer ∈ s.peers)
    (hid : upd.id = peer.id) (hkey : upd.publicKey = peer.publicKey)
    (hvip : upd.virtualIP = peer.virtualIP) :
    InvCore { s with peers := savePeer s.peers upd, store := savePeer s.store upd } := by
  have hpres : ∃ r ∈ s.peers, r.id = upd.id := ⟨peer, hmem, by rw [hid]⟩
  have hsame : ∀ (f : Peer → String) (hfp : f upd = f peer),
      ∀ r ∈ s.peers, r.id = upd.id → f r = f upd := by
    intro f hfp r hr hrid
    rw [mem_id_unique inv.ids_nodup hr hmem (by rw [hrid, hid]), hfp]
  have hsameN : ∀ (f : Peer → Nat) (hfp : f upd = f peer),
      ∀ r ∈ s.peers, r.id = upd.id → f r = f upd := by
    intro f hfp r hr hrid
    rw [mem_id_unique inv.ids_nodup hr hmem (by rw [hrid, hid]), hfp]
  have hmemR : ∀ r ∈ savePeer s.peers upd, r = upd ∨ (r ∈ s.peers ∧ r.id ≠ upd.id) :=
    fun r hr => mem_savePeer hr
  refine ⟨?_, ?_, ?_, ?_, ?_, ?_, ?_, ?_, inv.alloc_net⟩
  · rw [savePeer_map_eq (fun q => q.id) hpres (hsame _ hid)]
    exact inv.ids_nodup
  · rw [savePeer_map_eq (fun q => q.publicKey) hpres (hsame _ hkey)]
    exact inv.keys_nodup
  · rw [savePeer_map_eq (fun q => q.virtualIP) hpres (hsameN _ hvip)]
    exact inv.vips_nodup
  · intro q hq
    rcases hmemR q hq with rfl | ⟨hq2, _⟩
    · rw [show q.virtualIP = peer.virtualIP from hvip]
      exact inv.vip_in peer hmem
    · exact inv.vip_in q hq2
  · intro k pid hl
    obtain ⟨q, hq, hq1, hq2⟩ := inv.byKey_sound k pid hl
    by_cases hq3 : q.id = upd.id
    · have : q = peer := mem_id_unique inv.ids_nodup hq hmem (by rw [hq3, hid])
      subst this
      exact ⟨upd, savePeer_mem_self, by rw [hkey, hq1], by rw [hid, hq2]⟩
    · exact ⟨q, mem_savePeer_of_mem hq hq3, hq1, hq2⟩
  · intro q hq
    rcases hmemR q hq with rfl | ⟨hq2, _⟩
    · rw [show q.publicKey = peer.publicKey from hkey, show q.id = peer.id from hid]
      exact inv.byKey_complete peer hmem
    · exact inv.byKey_complete q hq2
  · intro q hq
    rcases hmemR q hq with rfl | ⟨hq2, _⟩
    · rw [show q.virtualIP = peer.virtualIP from hvip]
      exact inv.alloc_covers peer hmem
    · exact inv.alloc_covers q hq2
  · rw [inv.store_eq]

theorem sweepPeer_spec (now : Nat) (q : Peer) :
    (sweepPeer now q).id = q.id ∧ (sweepPeer now q).publicKey = q.publicKey ∧
    (sweepPeer now q).virtualIP = q.virtualIP ∧ (sweepPeer now q).endpoint = q.endpoint ∧
    (sweepPeer now q).hostname = q.hostname ∧ (sweepPeer now q).os = q.os ∧
    (sweepPeer now q).allowedIPs = q.allowedIPs ∧ (sweepPeer now q).exitNode = q.exitNode ∧
    (sweepPeer now q).lastHeartbeat = q.lastHeartbeat ∧
    (sweepPeer now q).online
      = (q.online && !(decide (HeartbeatTimeout < now - q.lastHeartbeat))) := by
  unfold sweepPeer
  by_cases h1 : HeartbeatTimeout < now - q.lastHeartbeat
  · rw [if_pos h1]
    by_cases h2 : q.online = true
    · rw [if_pos h2]
      simp [h2, h1]
    · rw [if_neg h2]
      have h3 : q.online = false := by revert h2; cases q.online <;> simp
      simp [h3, h1]
  · rw [if_neg h1]
    simp [h1]

theorem invCore_heartbeat (s : Server) (inv : InvCore s) (req : HeartbeatRequest)
    (now : Nat) : InvCore (handleHeartbeat s req now).2 := by
  unfold handleHeartbeat
  cases hf : findById s.peers req.peerId with
  | none => exact inv
  | some peer =>
    obtain ⟨hmem, _⟩ := findById_some hf
    exact invCore_update inv hmem rfl rfl rfl

theorem invCore_sweep (s : Server) (inv : InvCore s) (now : Nat) :
    InvCore (cleanupPass s now) := by
  have hids : ((s.peers.map (sweepPeer now)).map (fun q => q.id))
      = s.peers.map (fun q => q.id) := by
    rw [List.map_map]
    exact List.map_congr_left (fun q _ => (sweepPeer_spec now q).1)
  have hkeys : ((s.peers.map (sweepPeer now)).map (fun q => q.publicKey))
      = s.peers.map (fun q => q.publicKey) := by
    rw [List.map_map]
    exact List.map_congr_left (fun q _ => (sweepPeer_spec now q).2.1)
  have hvips : ((s.peers.map (sweepPeer now)).map (fun q => q.virtualIP))
      = s.peers.map (fun q => q.virtualIP) := by
    rw [List.map_map]
    exact List.map_congr_left (fun q _ => (sweepPeer_spec now q).2.2.1)
  refine ⟨?_, ?_, ?_, ?_, ?_, ?_, ?_, ?_, inv.alloc_net⟩
  · rw [show (cleanupPass s now).peers = s.peers.map (sweepPeer now) from rfl, hids]
    exact inv.ids_nodup
  · rw [show (cleanupPass s now).peers = s.peers.map (sweepPeer now) from rfl, hkeys]
    exact inv.keys_nodup
  · rw [show (cleanupPass s now).peers = s.peers.map (sweepPeer now) from rfl, hvips]
    exact inv.vips_nodup
  · intro q hq
    obtain ⟨r, hr, hrq⟩ := List.mem_map.mp hq
    subst hrq
    rw [(sweepPeer_spec now r).2.2.1]
    exact inv.vip_in r hr
  · intro k pid hl
    obtain ⟨q, hq, h1, h2⟩ := inv.byKey_sound k pid hl
    exact ⟨sweepPeer now q, List.mem_map.mpr ⟨q, hq, rfl⟩,
      by rw [(sweepPeer_spec now q).2.1, h1], by rw [(sweepPeer_spec now q).1, h2]⟩
  · intro q hq
    obtain ⟨r, hr, hrq⟩ := List.mem_map.mp hq
    subst hrq
    rw [(sweepPeer_spec now r).2.1, (sweepPeer_spec now r).1]
    exact inv.byKey_complete r hr
  · intro q hq
    obtain ⟨r, hr, hrq⟩ := List.mem_map.mp hq
    subst hrq
    rw [(sweepPeer_spec now r).2.2.1]
    exact inv.alloc_covers r hr
  · rw [show (cleanupPass s now).store = s.store.map (sweepPeer now) from rfl, inv.store_eq]
    rfl

theorem lookupKV_map_keyid (l : List Peer) (k : String) :
    lookupKV (l.map (fun q => (q.publicKey, q.id))) k
      = (l.find? (fun q => q.publicKey == k)).map (fun q => q.id) := by
  induction l with
  | nil => rfl
  | cons q t ih =>
    rw [List.map_cons]
    by_cases hk : (q.publicKey == k) = true
    · unfold lookupKV
      rw [List.find?_cons_of_pos (t.map (fun q => (q.publicKey, q.id)))
          (show ((q.publicKey, q.id).1 == k) = true from hk)]
      rw [List.find?_cons_of_pos t hk]
      rfl
    · unfold lookupKV
      rw [List.find?_cons_of_neg (t.map (fun q => (q.publicKey, q.id)))
          (show ¬((q.publicKey, q.id).1 == k) = true from hk)]
      rw [List.find?_cons_of_neg t hk]
      exact ih

theorem invCore_new (s : Server) (inv : InvCore s) (newPeer : Peer) (alloc' : IPAllocator)
    (hidf : ∀ r ∈ s.peers, r.id ≠ newPeer.id)
    (hkeyf : lookupKV s.peersByKey newPeer.publicKey = none)
    (hipc : containsIP s.alloc.net newPeer.virtualIP = true)
    (hipbr : newPeer.virtualIP ≠ broadcastAddr s.alloc.net)
    (hipfree : s.alloc.allocated newPeer.virtualIP = false)
    (hipset : alloc'.allocated newPeer.virtualIP = true)
    (hmono : ∀ j, s.alloc.allocated j = true → alloc'.allocated j = true)
    (hnet : alloc'.net = s.alloc.net) :
    InvCore { s with alloc := alloc',
                     peers := savePeer s.peers newPeer,
                     peersByKey := insertKV s.peersByKey newPeer.publicKey newPeer.id,
                     store := savePeer s.store newPeer } := by
  have hkeyfresh : ∀ q ∈ s.peers, q.publicKey ≠ newPeer.publicKey := by
    intro q hq he
    have := inv.byKey_complete q hq
    rw [he, hkeyf] at this
    cases this
  have hipfresh : ∀ q ∈ s.peers, q.virtualIP ≠ newPeer.virtualIP := by
    intro q hq he
    have := inv.alloc_covers q hq
    rw [he, hipfree] at this
    cases this
  have hsp : savePeer s.peers newPeer = s.peers ++ [newPeer] := savePeer_fresh hidf
  have hspStore : savePeer s.store newPeer = s.peers ++ [newPeer] := by
    rw [inv.store_eq]
    exact hsp
  have hbk : insertKV s.peersByKey newPeer.publicKey newPeer.id
      = s.peersByKey ++ [(newPeer.publicKey, newPeer.id)] :=
    insertKV_fresh (lookupKV_none hkeyf)
  refine ⟨?_, ?_, ?_, ?_, ?_, ?_, ?_, ?_, ?_⟩
  · show ((savePeer s.peers newPeer).map (fun q => q.id)).Nodup
    rw [hsp, List.map_append, List.nodup_append]
    refine ⟨inv.ids_nodup, by simp, ?_⟩
    intro a ha hb
    obtain ⟨q, hq, hqa⟩ := List.mem_map.mp ha
    have hab : a = newPeer.id := by simpa using hb
    exact hidf q hq (by rw [hqa, hab])
  · show ((savePeer s.peers newPeer).map (fun q => q.publicKey)).Nodup
    rw [hsp, List.map_append, List.nodup_append]
    refine ⟨inv.keys_nodup, by simp, ?_⟩
    intro a ha hb
    obtain ⟨q, hq, hqa⟩ := List.mem_map.mp ha
    have hab : a = newPeer.publicKey := by simpa using hb
    exact hkeyfresh q hq (by rw [hqa, hab])
  · show ((savePeer s.peers newPeer).map (fun q => q.virtualIP)).Nodup
    rw [hsp, List.map_append, List.nodup_append]
    refine ⟨inv.vips_nodup, by simp, ?_⟩
    intro a ha hb
    obtain ⟨q, hq, hqa⟩ := List.mem_map.mp ha
    have hab : a = newPeer.virtualIP := by simpa using hb
    exact hipfresh q hq (by rw [hqa, hab])
  · show ∀ q ∈ savePeer s.peers newPeer, _
    rw [hsp]
    intro q hq
    rcases List.mem_append.mp hq with h | h
    · exact inv.vip_in q h
    · have hq2 : q = newPeer := by simpa using h
      subst hq2
      rw [show ({ s with alloc := alloc' } : Server).net = s.net from rfl]
      rw [show s.net = s.alloc.net from inv.alloc_net.symm]
      exact ⟨hipc, hipbr⟩
  · show ∀ k pid, lookupKV (insertKV s.peersByKey newPeer.publicKey newPeer.id) k = some pid → _
    rw [hbk]
    intro k pid hlk
    by_cases hk : k = newPeer.publicKey
    · subst hk
      rw [lookupKV_append_right (lookupKV_none hkeyf)] at hlk
      refine ⟨newPeer, ?_, rfl, Option.some.inj hlk⟩
      rw [hsp]
      exact List.mem_append.mpr (Or.inr (List.mem_singleton_self _))
    · rw [lookupKV_append_left hk] at hlk
      obtain ⟨q, hq, h1, h2⟩ := inv.byKey_sound k pid hlk
      refine ⟨q, ?_, h1, h2⟩
      rw [hsp]
      exact List.mem_append.mpr (Or.inl hq)
  · show ∀ q ∈ savePeer s.peers newPeer, _
    rw [hsp, hbk]
    intro q hq
    rcases List.mem_append.mp hq with h | h
    · rw [lookupKV_append_left (hkeyfresh q h)]
      exact inv.byKey_complete q h
    · have hq2 : q = newPeer := by simpa using h
      subst hq2
      exact lookupKV_append_right (lookupKV_none hkeyf)
  · show ∀ q ∈ savePeer s.peers newPeer, alloc'.allocated q.virtualIP = true
    rw [hsp]
    intro q hq
    rcases List.mem_append.mp hq with h | h
    · exact hmono _ (inv.alloc_covers q h)
    · have hq2 : q = newPeer := by simpa using h
      subst hq2
      exact hipset
  · show savePeer s.store newPeer = savePeer s.peers newPeer
    rw [hsp, hspStore]
  · exact hnet.trans inv.alloc_net

theorem invCore_register (s : Server) (inv : InvCore s) (req : RegisterRequest)
    (newId : String) (now : Nat)
    (hfresh : lookupKV s.peersByKey req.publicKey = none → findById s.peers newId = none) :
    InvCore (handleRegister s req newId now).2 := by
  unfold handleRegister
  split
  · rename_i pid hl
    split
    · rename_i peer hfind
      obtain ⟨hmem, _⟩ := findById_some hfind
      exact invCore_update inv hmem rfl rfl rfl
    · exact inv
  · rename_i hl
    have hidfresh : ∀ r ∈ s.peers, r.id ≠ newId := findById_none (hfresh hl)
    split
    · rename_i pr ip alloc' halloc
      obtain ⟨hnet, hmono, hok, _⟩ := allocLoop_spec _ _ _ _ halloc
      obtain ⟨hipc, hipbr, hipfree, hipset, _⟩ := hok ip rfl
      exact invCore_new s inv _ alloc' (fun r hr => hidfresh r hr) hl
        hipc hipbr hipfree hipset hmono hnet
    · rename_i pr alloc' halloc
      obtain ⟨hnet, hmono, _, hexh⟩ := allocLoop_spec _ _ _ _ halloc
      obtain ⟨heq, _⟩ := hexh rfl
      refine ⟨inv.ids_nodup, inv.keys_nodup, inv.vips_nodup, inv.vip_in,
        inv.byKey_sound, inv.byKey_complete, ?_, inv.store_eq, hnet.trans inv.alloc_net⟩
      intro q hq
      rw [heq]
      exact inv.alloc_covers q hq
    · exact inv

theorem invCore_restart (s : Server) (inv : InvCore s) : InvCore (restartServer s) := by
  have hpeers : s.store.foldl (fun m q => savePeer m q) [] = s.peers := by
    rw [inv.store_eq,
      foldl_savePeer_from s.peers [] (by intro q _ r hr; cases hr) inv.ids_nodup]
    simp
  have hkeys : s.store.foldl (fun m q => insertKV m q.publicKey q.id) []
      = s.peers.map (fun q => (q.publicKey, q.id)) := by
    rw [inv.store_eq,
      foldl_insertKV_from s.peers [] (by intro q _ e he; cases he) inv.keys_nodup]
    simp
  obtain ⟨han, hax, haa⟩ := reserveAll_spec s.store (NewIPAllocator s.net)
    (by rw [inv.store_eq]; intro q hq; exact (inv.vip_in q hq).1)
    (by intro q _; rfl)
    (by rw [inv.store_eq]; exact inv.vips_nodup)
  have hP : (restartServer s).peers = s.peers := hpeers
  have hK : (restartServer s).peersByKey = s.peers.map (fun q => (q.publicKey, q.id)) := hkeys
  refine ⟨?_, ?_, ?_, ?_, ?_, ?_, ?_, ?_, ?_⟩
  · rw [hP]; exact inv.ids_nodup
  · rw [hP]; exact inv.keys_nodup
  · rw [hP]; exact inv.vips_nodup
  · rw [hP]
    intro q hq
    exact inv.vip_in q hq
  · rw [hK]
    intro k pid hlk
    rw [lookupKV_map_keyid] at hlk
    cases hfq : s.peers.find? (fun q => q.publicKey == k) with
    | none => rw [hfq] at hlk; cases hlk
    | some q =>
      rw [hfq] at hlk
      have hmem := List.mem_of_find?_eq_some hfq
      have hkq := List.find?_some hfq
      simp only [beq_iff_eq] at hkq
      refine ⟨q, ?_, hkq, by simpa using hlk⟩
      rw [hP]
      exact hmem
  · rw [hP, hK]
    intro q hq
    rw [lookupKV_map_keyid,
      find?_field_of_mem (fun p => p.publicKey) s.peers inv.keys_nodup hq]
    rfl
  · rw [hP]
    intro q hq
    show (reserveAll (NewIPAllocator s.net) s.store).allocated q.virtualIP = true
    rw [haa]
    right
    rw [inv.store_eq]
    exact List.mem_map.mpr ⟨q, hq, rfl⟩
  · rw [hP]
    exact inv.store_eq
  · exact han

theorem invCore_step {s s' : Server} (inv : InvCore s) (h : Step s s') : InvCore s' := by
  cases h with
  | register req newId now hfresh => exact invCore_register s inv req newId now hfresh
  | heartbeat req now => exact invCore_heartbeat s inv req now
  | sweep now => exact invCore_sweep s inv now
  | restart => exact invCore_restart s inv

theorem invCore_steps {s s' : Server} (inv : InvCore s) (h : Steps s s') : InvCore s' := by
  induction h with
  | refl => exact inv
  | tail hsteps hstep ih => exact invCore_step ih hstep

theorem invCore_reach {n : Net} {pub : String} {s : Server}
    (h : Steps (initServer n pub) s) : InvCore s :=
  invCore_steps (invCore_init n pub) h

theorem restartServer_peers (s : Server) (inv : InvCore s) :
    (restartServer s).peers = s.peers := by
  show s.store.foldl (fun m q => savePeer m q) [] = s.peers
  rw [inv.store_eq,
    foldl_savePeer_from s.peers [] (by intro q _ r hr; cases hr) inv.ids_nodup]
  simp

theorem handleRegister_existing (s : Server) (req : RegisterRequest) (newId : String)
    (now : Nat) {pid : String} {peer : Peer}
    (hl : lookupKV s.peersByKey req.publicKey = some pid)
    (hf : findById s.peers pid = some peer) :
    handleRegister s req newId now =
      ({ success := true, error := "", assignedIP := peer.virtualIP,
         networkCIDR := cidrStr s.net, peerId := peer.id, serverPublicKey := s.publicKey },
       { s with
         peers := savePeer s.peers
           { peer with hostname := req.hostname, os := req.os, endpoint := req.endpoint,
                       lastHeartbeat := now, online := true },
         store := savePeer s.store
           { peer with hostname := req.hostname, os := req.os, endpoint := req.endpoint,
                       lastHeartbeat := now, online := true } }) := by
  unfold handleRegister
  simp only [hl, hf]

theorem handleRegister_new (s : Server) (req : RegisterRequest) (newId : String)
    (now : Nat) {ip : Nat} {alloc' : IPAllocator}
    (hl : lookupKV s.peersByKey req.publicKey = none)
    (ha : AllocateIP s.alloc = some (.ok ip, alloc')) :
    handleRegister s req newId now =
      ({ success := true, error := "", assignedIP := ip, networkCIDR := cidrStr s.net,
         peerId := newId, serverPublicKey := s.publicKey },
       { s with alloc := alloc',
                peers := savePeer s.peers (mkNewPeer req newId ip now),
                peersByKey := insertKV s.peersByKey req.publicKey newId,
                store := savePeer s.store (mkNewPeer req newId ip now) }) := by
  unfold handleRegister
  simp only [hl, ha]

theorem handleRegister_net (s : Server) (req : RegisterRequest) (newId : String)
    (now : Nat) : (handleRegister s req newId now).2.net = s.net := by
  unfold handleRegister
  split
  · split <;> rfl
  · split <;> rfl

theorem handleHeartbeat_net (s : Server) (req : HeartbeatRequest) (now : Nat) :
    (handleHeartbeat s req now).2.net = s.net := by
  unfold handleHeartbeat
  cases findById s.peers req.peerId <;> rfl

theorem step_net {s s' : Server} (h : Step s s') : s'.net = s.net := by
  cases h with
  | register req newId now hfresh => exact handleRegister_net s req newId now
  | heartbeat req now => exact handleHeartbeat_net s req now
  | sweep now => rfl
  | restart => rfl

theorem steps_net {s s' : Server} (h : Steps s s') : s'.net = s.net := by
  induction h with
  | refl => rfl
  | tail hsteps hstep ih => rw [step_net hstep, ih]

/-- The second tier of the registry invariant (needs a nonzero prefix):
the allocator cursor stays past the network address, so no assigned
address is the network address. -/
structure InvBase (s : Server) : Prop where
  cursor : CursorInv s.alloc
  vip_nbase : ∀ q ∈ s.peers, q.virtualIP ≠ s.net.base

theorem invBase_step {s s' : Server} (hp : 1 ≤ s.net.p) (inv : InvCore s)
    (hb : InvBase s) (h : Step s s') : InvBase s' := by
  cases h with
  | register req newId now hfresh =>
    unfold handleRegister
    split
    · rename_i pid hl
      split
      · rename_i peer hfind
        obtain ⟨hmem, _⟩ := findById_some hfind
        refine ⟨hb.cursor, ?_⟩
        intro q hq
        rcases mem_savePeer hq with rfl | ⟨hq2, _⟩
        · exact hb.vip_nbase peer hmem
        · exact hb.vip_nbase q hq2
      · exact hb
    · rename_i hl
      split
      · rename_i pr ip alloc' halloc
        have hp' : 1 ≤ s.alloc.net.p := by rw [inv.alloc_net]; exact hp
        obtain ⟨hcur, hbounds⟩ := allocLoop_cursor _ _ _ _ hp' hb.cursor halloc
        obtain ⟨hlow, hhigh⟩ := hbounds ip rfl
        refine ⟨hcur, ?_⟩
        intro q hq
        rcases mem_savePeer hq with rfl | ⟨hq2, _⟩
        · intro he
          have he2 : ip = s.net.base := he
          rw [← inv.alloc_net] at he2
          omega
        · exact hb.vip_nbase q hq2
      · rename_i pr alloc' halloc
        have hp' : 1 ≤ s.alloc.net.p := by rw [inv.alloc_net]; exact hp
        obtain ⟨hcur, _⟩ := allocLoop_cursor _ _ _ _ hp' hb.cursor halloc
        exact ⟨hcur, hb.vip_nbase⟩
      · exact hb
  | heartbeat req now =>
    unfold handleHeartbeat
    cases hf : findById s.peers req.peerId with
    | none => exact hb
    | some peer =>
      obtain ⟨hmem, _⟩ := findById_some hf
      refine ⟨hb.cursor, ?_⟩
      intro q hq
      rcases mem_savePeer hq with rfl | ⟨hq2, _⟩
      · exact hb.vip_nbase peer hmem
      · exact hb.vip_nbase q hq2
  | sweep now =>
    refine ⟨hb.cursor, ?_⟩
    intro q hq
    obtain ⟨r, hr, hrq⟩ := List.mem_map.mp hq
    subst hrq
    rw [(sweepPeer_spec now r).2.2.1]
    exact hb.vip_nbase r hr
  | restart =>
    obtain ⟨han, hax, _⟩ := reserveAll_spec s.store (NewIPAllocator s.net)
      (by rw [inv.store_eq]; intro q hq; exact (inv.vip_in q hq).1)
      (by intro q _; rfl)
      (by rw [inv.store_eq]; exact inv.vips_nodup)
    refine ⟨?_, ?_⟩
    · have hinit := cursorInv_init s.net
      unfold CursorInv at hinit ⊢
      rw [show (restartServer s).alloc = reserveAll (NewIPAllocator s.net) s.store from rfl,
        han, hax]
      exact hinit
    · rw [restartServer_peers s inv]
      exact hb.vip_nbase

theorem invAll_reach {n : Net} {pub : String} {s : Server} (hp : 1 ≤ n.p)
    (h : Steps (initServer n pub) s) : InvCore s ∧ InvBase s ∧ s.net = n := by
  induction h with
  | refl =>
    exact ⟨invCore_init n pub, ⟨cursorInv_init n, by intro q hq; cases hq⟩, rfl⟩
  | tail hsteps hstep ih =>
    obtain ⟨ic, ib, hn⟩ := ih
    refine ⟨invCore_step ic hstep, ?_, by rw [step_net hstep, hn]⟩
    exact invBase_step (by rw [hn]; exact hp) ic ib hstep

theorem record_persist_step {s s' : Server} (inv : InvCore s) (h : Step s s')
    (K i : String) (v : Nat)
    (hq : ∃ q ∈ s.peers, q.publicKey = K ∧ q.id = i ∧ q.virtualIP = v) :
    ∃ q ∈ s'.peers, q.publicKey = K ∧ q.id = i ∧ q.virtualIP = v := by
  obtain ⟨q, hqm, h1, h2, h3⟩ := hq
  cases h with
  | register req newId now hfresh =>
    unfold handleRegister
    split
    · rename_i pid hl
      split
      · rename_i peer hfind
        obtain ⟨hmem, hpid⟩ := findById_some hfind
        by_cases hqe : q.id = peer.id
        · have hqp : q = peer := mem_id_unique inv.ids_nodup hqm hmem hqe
          subst hqp
          exact ⟨_, savePeer_mem_self, h1, h2, h3⟩
        · exact ⟨q, mem_savePeer_of_mem hqm hqe, h1, h2, h3⟩
      · exact ⟨q, hqm, h1, h2, h3⟩
    · rename_i hl
      split
      · rename_i pr ip alloc' halloc
        have hidf := findById_none (hfresh hl)
        exact ⟨q, mem_savePeer_of_mem hqm (hidf q hqm), h1, h2, h3⟩
      · exact ⟨q, hqm, h1, h2, h3⟩
      · exact ⟨q, hqm, h1, h2, h3⟩
  | heartbeat req now =>
    unfold handleHeartbeat
    cases hf : findById s.peers req.peerId with
    | none => exact ⟨q, hqm, h1, h2, h3⟩
    | some peer =>
      obtain ⟨hmem, hpid⟩ := findById_some hf
      by_cases hqe : q.id = peer.id
      · have hqp : q = peer := mem_id_unique inv.ids_nodup hqm hmem hqe
        subst hqp
        exact ⟨_, savePeer_mem_self, h1, h2, h3⟩
      · exact ⟨q, mem_savePeer_of_mem hqm hqe, h1, h2, h3⟩
  | sweep now =>
    exact ⟨sweepPeer now q, List.mem_map.mpr ⟨q, hqm, rfl⟩,
      by rw [(sweepPeer_spec now q).2.1]; exact h1,
      by rw [(sweepPeer_spec now q).1]; exact h2,
      by rw [(sweepPeer_spec now q).2.2.1]; exact h3⟩
  | restart =>
    rw [restartServer_peers s inv]
    exact ⟨q, hqm, h1, h2, h3⟩

theorem record_persist_star {s s' : Server} (inv : InvCore s) (h : Steps s s')
    (K i : String) (v : Nat)
    (hq : ∃ q ∈ s.peers, q.publicKey = K ∧ q.id = i ∧ q.virtualIP = v) :
    ∃ q ∈ s'.peers, q.publicKey = K ∧ q.id = i ∧ q.virtualIP = v := by
  induction h with
  | refl => exact hq
  | tail hsteps hstep ih =>
    exact record_persist_step (invCore_steps inv hsteps) hstep K i v ih

theorem register_success_record (s : Server) (inv : InvCore s) (req : RegisterRequest)
    (newId : String) (now : Nat) (resp : RegisterResponse) (s' : Server)
    (he : handleRegister s req newId now = (resp, s'))
    (hs : resp.success = true) :
    ∃ q ∈ s'.peers, q.publicKey = req.publicKey ∧ q.id = resp.peerId ∧
      q.virtualIP = resp.assignedIP := by
  unfold handleRegister at he
  split at he
  · rename_i pid hl
    split at he
    · rename_i peer hfind
      rw [Prod.mk.injEq] at he
      obtain ⟨hr, hst⟩ := he
      subst hr
      subst hst
      obtain ⟨hmem, hpid⟩ := findById_some hfind
      obtain ⟨q0, hq0mem, hq0k, hq0id⟩ := inv.byKey_sound _ _ hl
      have hq0p : q0 = peer := mem_id_unique inv.ids_nodup hq0mem hmem (by rw [hq0id, hpid])
      subst hq0p
      exact ⟨_, savePeer_mem_self, hq0k, rfl, rfl⟩
    · rw [Prod.mk.injEq] at he
      obtain ⟨hr, _⟩ := he
      subst hr
      simp at hs
  · rename_i hl
    split at he
    · rename_i pr ip alloc' halloc
      rw [Prod.mk.injEq] at he
      obtain ⟨hr, hst⟩ := he
      subst hr
      subst hst
      exact ⟨_, savePeer_mem_self, rfl, rfl, rfl⟩
    · rw [Prod.mk.injEq] at he
      obtain ⟨hr, _⟩ := he
      subst hr
      simp at hs
    · rw [Prod.mk.injEq] at he
      obtain ⟨hr, _⟩ := he
      subst hr
      simp at hs

theorem register_reads_record (s : Server) (inv : InvCore s) (req : RegisterRequest)
    (newId : String) (now : Nat) (i : String) (v : Nat)
    (hq : ∃ q ∈ s.peers, q.publicKey = req.publicKey ∧ q.id = i ∧ q.virtualIP = v) :
    (handleRegister s req newId now).1.success = true ∧
    (handleRegister s req newId now).1.peerId = i ∧
    (handleRegister s req newId now).1.assignedIP = v := by
  obtain ⟨q, hqm, h1, h2, h3⟩ := hq
  have hl : lookupKV s.peersByKey req.publicKey = some q.id := by
    rw [← h1]
    exact inv.byKey_complete q hqm
  have hf : findById s.peers q.id = some q := findById_of_mem inv.ids_nodup hqm
  rw [handleRegister_existing s req newId now hl hf]
  exact ⟨rfl, h2, h3⟩

/-- The registry invariant of spec section 8: key uniqueness, address
uniqueness, and every assigned address strictly inside the CIDR. -/
def RegistryInvariant (s : Server) : Prop :=
  (s.peers.map (fun q => q.publicKey)).Nodup ∧
  (s.peers.map (fun q => q.virtualIP)).Nodup ∧
  ∀ q ∈ s.peers, containsIP s.net q.virtualIP = true ∧
    q.virtualIP ≠ s.net.base ∧ q.virtualIP ≠ broadcastAddr s.net

/-- Sample register request for key KA (exit node off). -/
def reqA : RegisterRequest :=
  { publicKey := "KA", hostname := "ha", os := "linux", endpoint := "1.2.3.4:51820",
    requestIP := false, exitNode := false, allowedIPs := [] }

/-- Sample register request for key KB (exit node on). -/
def reqB : RegisterRequest :=
  { publicKey := "KB", hostname := "hb", os := "darwin", endpoint := "",
    requestIP := false, exitNode := true, allowedIPs := [] }

/-- One `AllocateIP` call on the `/0` allocator after `m` successful ones:
returns address `m + 1` (for `m + 1` still below the broadcast address) and
leaves the allocator in the `m + 1`-allocations state. -/
theorem allocStep_net0 (m : Nat) (hm : m + 1 ≤ 2 ^ 32 - 2) :
    AllocateIP (allocRepeat m (NewIPAllocator net0))
      = some (.ok (m + 1), allocRepeat (m + 1) (NewIPAllocator net0)) := by
  obtain ⟨hnet, hnext, hall⟩ := allocRepeat_net0 m (by omega)
  have hfree : (allocRepeat m (NewIPAllocator net0)).allocated (m + 1) ≠ true := by
    intro hc
    have := (hall _).mp hc
    omega
  have hcont : containsIP net0 (m + 1) = true := by
    rw [containsIP_iff]
    have h1 : net0.base = 0 := rfl
    have h2 : net0.size = 2 ^ 32 := rfl
    omega
  have hbr : m + 1 ≠ broadcastAddr net0 := by
    have : broadcastAddr net0 = 2 ^ 32 - 1 := rfl
    omega
  have hcomp : AllocateIP (allocRepeat m (NewIPAllocator net0)) =
      some (.ok (m + 1),
        ⟨net0,
         fun j =>
           if j = m + 1 then true
           else (allocRepeat m (NewIPAllocator net0)).allocated j,
         incrementIP (m + 1)⟩) := by
    unfold AllocateIP
    rw [hnet]
    rw [show net0.size + 2 = (2 ^ 32 + 1) + 1 from rfl]
    rw [allocLoop, hnet, hnext]
    rw [if_neg (by simp [hcont]), if_neg hbr, if_neg hfree]
  rw [show allocRepeat (m + 1) (NewIPAllocator net0)
      = allocOnce (allocRepeat m (NewIPAllocator net0)) from rfl]
  unfold allocOnce
  rw [hcomp]

/-- The `2 ^ 32 - 1`-st `AllocateIP` call on the `/0` allocator: the cursor
sits on the broadcast address, the skip step wraps it to `0.0.0.0`, and the
network address is handed out. -/
theorem allocLast_net0 :
    ∃ b, AllocateIP (allocRepeat (2 ^ 32 - 2) (NewIPAllocator net0))
      = some (.ok 0, b) := by
  obtain ⟨hnet, hnext, hall⟩ := allocRepeat_net0 (2 ^ 32 - 2) (le_refl _)
  revert hnet hnext hall
  generalize allocRepeat (2 ^ 32 - 2) (NewIPAllocator net0) = A
  obtain ⟨Anet, Aalloc, Anext⟩ := A
  intro hnet hnext hall
  have hnet' : Anet = net0 := hnet
  have hnext' : Anext = 2 ^ 32 - 2 + 1 := hnext
  subst hnet'
  subst hnext'
  have hfree0 : Aalloc 0 = false := by
    cases hb : Aalloc 0 with
    | false => rfl
    | true => exact absurd ((hall 0).mp hb) (by omega)
  have e1 := allocLoop_skip_step (2 ^ 32 + 1) net0 Aalloc (2 ^ 32 - 2 + 1) 0
    (by decide) (by decide) (by decide)
  have e2 := allocLoop_ret_step (2 ^ 32) net0 Aalloc 0 1
    (by decide) (by decide) hfree0 (by decide)
  refine ⟨⟨net0, fun j => if j = 0 then true else Aalloc j, 1⟩, ?_⟩
  show allocLoop ((2 ^ 32 + 1) + 1) (⟨net0, Aalloc, 2 ^ 32 - 2 + 1⟩ : IPAllocator)
      = some (.ok 0, ⟨net0, fun j => if j = 0 then true else Aalloc j, 1⟩)
  rw [e1]
  exact e2

/-- Register request number `m` of the `/0` filling trace: key of `m`
repeated characters, guaranteed distinct from every earlier one. -/
def regReq (k : String) : RegisterRequest :=
  { publicKey := k, hostname := "h", os := "o", endpoint := "",
    requestIP := false, exitNode := false, allowedIPs := [] }

/-- The `m`-th public key of the filling trace. -/
def keyName (m : Nat) : String := String.mk (List.replicate m 'k')

/-- The `m`-th minted peer id of the filling trace. -/
def idName (m : Nat) : String := String.mk (List.replicate m 'i')

theorem keyName_ne {i j : Nat} (h : i ≠ j) : keyName i ≠ keyName j := by
  intro he
  apply h
  have hlen := congrArg String.length he
  simpa [keyName, String.length, List.length_replicate] using hlen

theorem idName_ne {i j : Nat} (h : i ≠ j) : idName i ≠ idName j := by
  intro he
  apply h
  have hlen := congrArg String.length he
  simpa [idName, String.length, List.length_replicate] using hlen

theorem findById_append_none {l : List Peer} {q : Peer} {pid : String}
    (h : findById l pid = none) (hne : q.id ≠ pid) :
    findById (l ++ [q]) pid = none := by
  unfold findById at h ⊢
  rw [List.find?_append, h]
  simp only [Option.none_or]
  rw [List.find?_cons_of_neg _ (by simpa using hne)]
  simp [List.find?_nil]

/-- Registry states along the `/0` filling trace: after `m` registrations
with the distinct keys `keyName 0 .. keyName (m-1)`, the coordinator's
allocator is the `m`-allocations state and every later key and id is still
unused. -/
theorem reach_net0 : ∀ m : Nat, m ≤ 2 ^ 32 - 2 →
    ∃ s : Server, Steps (initServer net0 "PK") s ∧
      s.alloc = allocRepeat m (NewIPAllocator net0) ∧
      (∀ j, m ≤ j → lookupKV s.peersByKey (keyName j) = none) ∧
      (∀ j, m ≤ j → findById s.peers (idName j) = none) := by
  intro m
  induction m with
  | zero =>
    intro _
    exact ⟨initServer net0 "PK", Steps.refl _, rfl, fun j _ => rfl, fun j _ => rfl⟩
  | succ m ih =>
    intro hm
    obtain ⟨s, hsteps, halloc, hkeys, hids⟩ := ih (by omega)
    have hl : lookupKV s.peersByKey (keyName m) = none := hkeys m (le_refl m)
    have ha : AllocateIP s.alloc
        = some (.ok (m + 1), allocRepeat (m + 1) (NewIPAllocator net0)) := by
      rw [halloc]
      exact allocStep_net0 m hm
    have heq := handleRegister_new s (regReq (keyName m)) (idName m) 0 hl ha
    have hfresh : lookupKV s.peersByKey (regReq (keyName m)).publicKey = none →
        findById s.peers (idName m) = none := fun _ => hids m (le_refl m)
    refine ⟨(handleRegister s (regReq (keyName m)) (idName m) 0).2,
      Steps.tail hsteps (Step.register s (regReq (keyName m)) (idName m) 0 hfresh),
      ?_, ?_, ?_⟩
    · rw [heq]
    · intro j hj
      rw [heq]
      show lookupKV
        (insertKV s.peersByKey (regReq (keyName m)).publicKey (idName m)) (keyName j)
        = none
      have hl' : lookupKV s.peersByKey (regReq (keyName m)).publicKey = none := hl
      have hne : keyName j ≠ (regReq (keyName m)).publicKey :=
        keyName_ne (by omega : j ≠ m)
      rw [insertKV_fresh (lookupKV_none hl')]
      rw [lookupKV_append_left hne]
      exact hkeys j (by omega)
    · intro j hj
      rw [heq]
      show findById
        (savePeer s.peers (mkNewPeer (regReq (keyName m)) (idName m) (m + 1) 0)) (idName j)
        = none
      rw [savePeer_fresh (findById_none (hids m (le_refl m)))]
      exact findById_append_none (hids j (by omega)) (idName_ne (by omega : m ≠ j))

/-- C5, counterexample: on the network CIDR 0.0.0.0/0 the claimed exclusion
of the network address fails on the code. There is a reachable registry
state — produced by 2^32 - 1 registrations with distinct keys — holding a
peer whose virtual IP equals the network address: the allocator's cursor
wraps past the broadcast address to 0.0.0.0 and `handleRegister` assigns
it. -/
theorem C5_counterexample :
    ∃ s : Server, Steps (initServer net0 "PK") s ∧
      ∃ q ∈ s.peers, q.virtualIP = s.net.base := by
  obtain ⟨s, hsteps, halloc, hkeys, hids⟩ := reach_net0 (2 ^ 32 - 2) (le_refl _)
  have hl : lookupKV s.peersByKey (keyName (2 ^ 32 - 2)) = none := hkeys _ (le_refl _)
  obtain ⟨b, hab⟩ : ∃ b, AllocateIP s.alloc = some (.ok 0, b) := by
    rw [halloc]
    exact allocLast_net0
  have heq := handleRegister_new s (regReq (keyName (2 ^ 32 - 2))) (idName (2 ^ 32 - 2))
    0 hl hab
  have hfresh : lookupKV s.peersByKey (regReq (keyName (2 ^ 32 - 2))).publicKey = none →
      findById s.peers (idName (2 ^ 32 - 2)) = none := fun _ => hids _ (le_refl _)
  refine ⟨(handleRegister s (regReq (keyName (2 ^ 32 - 2))) (idName (2 ^ 32 - 2)) 0).2,
    Steps.tail hsteps
      (Step.register s (regReq (keyName (2 ^ 32 - 2))) (idName (2 ^ 32 - 2)) 0 hfresh),
    ?_⟩
  rw [heq]
  refine ⟨mkNewPeer (regReq (keyName (2 ^ 32 - 2))) (idName (2 ^ 32 - 2)) 0 0,
    savePeer_mem_self, ?_⟩
  show (0 : Nat) = s.net.base
  rw [steps_net hsteps]
  rfl

/-- C5 amended: after any sequence of Register, Heartbeat, sweeper passes,
and restart rehydration from the store, public keys are unique across
peers, virtual IPs are unique across peers, and every virtual IP lies
inside the network CIDR and differs from the broadcast address — over every
CIDR. The exclusion of the network address holds whenever the prefix
length is at least 1 (every non-degenerate CIDR); over 0.0.0.0/0 the
network address can be assigned, see the counterexample. -/
theorem C5_theorem {n : Net} {pub : String} {s : Server}
    (h : Steps (initServer n pub) s) :
    (s.peers.map (fun q => q.publicKey)).Nodup ∧
    (s.peers.map (fun q => q.virtualIP)).Nodup ∧
    (∀ q ∈ s.peers, containsIP s.net q.virtualIP = true ∧
      q.virtualIP ≠ broadcastAddr s.net) ∧
    (1 ≤ n.p → RegistryInvariant s) := by
  have ic := invCore_reach h
  refine ⟨ic.keys_nodup, ic.vips_nodup, fun q hq => ic.vip_in q hq, fun hp => ?_⟩
  obtain ⟨ic2, ib, hn⟩ := invAll_reach hp h
  exact ⟨ic2.keys_nodup, ic2.vips_nodup, fun q hq =>
    ⟨(ic2.vip_in q hq).1, ib.vip_nbase q hq, (ic2.vip_in q hq).2⟩⟩

/-- C5 at a concrete trace over 10.100.0.0/30: two registrations, a
heartbeat, a sweeper pass that knocks the silent peer offline, and a
coordinator restart rehydrating from the store. -/
theorem C5_witness :
    RegistryInvariant
      (restartServer
        (cleanupPass
          ((handleHeartbeat
            ((handleRegister
              ((handleRegister (initServer net30 "SPK") reqA "peer-1" 0).2)
              reqB "peer-2" 10).2)
            { peerId := "peer-1", endpoint := "" } 60).2)
          200)) :=
  (C5_theorem
    (Steps.tail
      (Steps.tail
        (Steps.tail
          (Steps.tail
            (Steps.tail (Steps.refl _)
              (Step.register _ reqA "peer-1" 0 (fun _ => by decide)))
            (Step.register _ reqB "peer-2" 10 (fun _ => by decide)))
          (Step.heartbeat _ { peerId := "peer-1", endpoint := "" } 60))
        (Step.sweep _ 200))
      (Step.restart _))).2.2.2 (by decide)

/-- A second register request for key KA with refreshed mutable fields. -/
def reqA2 : RegisterRequest :=
  { publicKey := "KA", hostname := "ha-new", os := "linux", endpoint := "5.6.7.8:51820",
    requestIP := false, exitNode := true, allowedIPs := [] }

theorem filter_key_nil {t : List Peer} {K : String}
    (h : ∀ r ∈ t, r.publicKey ≠ K) :
    t.filter (fun r => r.publicKey == K) = [] := by
  induction t with
  | nil => rfl
  | cons r t ih =>
    rw [List.filter_cons]
    have hr : (r.publicKey == K) = false :=
      beq_eq_false_iff_ne.mpr (h r (List.mem_cons_self r t))
    rw [hr]
    simp only [Bool.false_eq_true, if_false]
    exact ih (fun x hx => h x (List.mem_cons_of_mem _ hx))

theorem filter_key_unique {l : List Peer}
    (hnd : (l.map (fun q => q.publicKey)).Nodup) {q : Peer} (hq : q ∈ l) :
    (l.filter (fun r => r.publicKey == q.publicKey)).length = 1 := by
  induction l with
  | nil => cases hq
  | cons r t ih =>
    rw [List.map_cons, List.nodup_cons] at hnd
    obtain ⟨hnot, hnd2⟩ := hnd
    cases hq with
    | head =>
      rw [List.filter_cons]
      have hq1 : (q.publicKey == q.publicKey) = true := beq_self_eq_true _
      rw [hq1]
      simp only [if_true]
      rw [filter_key_nil (fun x hx heq => hnot (List.mem_map.mpr ⟨x, hx, heq⟩))]
      rfl
    | tail _ hq2 =>
      rw [List.filter_cons]
      have hr : (r.publicKey == q.publicKey) = false := by
        refine beq_eq_false_iff_ne.mpr (fun heq => hnot ?_)
        exact heq ▸ List.mem_map.mpr ⟨q, hq2, rfl⟩
      rw [hr]
      simp only [Bool.false_eq_true, if_false]
      exact ih hnd2 hq2

/-- C2: registration idempotence. From any reachable state, once a Register
for key K has succeeded (returning some peer id and virtual IP), every
later Register carrying K — after an arbitrary interleaving of other
peers' Register, Heartbeat, sweeper, and restart transitions — succeeds
and returns the same peer id and the same virtual IP, and the registry
holds exactly one record for K. -/
theorem C2_theorem {n : Net} {pub : String} {s1 s2 : Server}
    (h01 : Steps (initServer n pub) s1)
    (req1 req2 : RegisterRequest) (hkey : req2.publicKey = req1.publicKey)
    (newId1 : String) (now1 : Nat)
    (hfresh1 : lookupKV s1.peersByKey req1.publicKey = none →
      findById s1.peers newId1 = none)
    (resp1 : RegisterResponse)
    (he1 : (handleRegister s1 req1 newId1 now1).1 = resp1)
    (hs1 : resp1.success = true)
    (h12 : Steps (handleRegister s1 req1 newId1 now1).2 s2)
    (newId2 : String) (now2 : Nat) :
    (handleRegister s2 req2 newId2 now2).1.success = true ∧
    (handleRegister s2 req2 newId2 now2).1.peerId = resp1.peerId ∧
    (handleRegister s2 req2 newId2 now2).1.assignedIP = resp1.assignedIP ∧
    (s2.peers.filter (fun q => q.publicKey == req1.publicKey)).length = 1 := by
  have inv1 : InvCore s1 := invCore_reach h01
  have he : handleRegister s1 req1 newId1 now1
      = (resp1, (handleRegister s1 req1 newId1 now1).2) := by rw [← he1]
  have hrec := register_success_record s1 inv1 req1 newId1 now1 resp1 _ he hs1
  have inv1' : InvCore (handleRegister s1 req1 newId1 now1).2 :=
    invCore_step inv1 (Step.register s1 req1 newId1 now1 hfresh1)
  have hrec2 := record_persist_star inv1' h12 req1.publicKey resp1.peerId
    resp1.assignedIP hrec
  have inv2 : InvCore s2 := invCore_steps inv1' h12
  have hreads := register_reads_record s2 inv2 req2 newId2 now2 resp1.peerId
    resp1.assignedIP (by rw [hkey]; exact hrec2)
  refine ⟨hreads.1, hreads.2.1, hreads.2.2, ?_⟩
  obtain ⟨q, hqm, hq1, _, _⟩ := hrec2
  rw [← hq1]
  exact filter_key_unique inv2.keys_nodup hqm

/-- C2 at a concrete trace over 10.100.0.0/30: KA registers first
(peer-1), KB registers in between, then KA registers again with changed
hostname, endpoint and exit-node flag: the second response repeats
peer-1's id and address, and exactly one KA record remains. -/
theorem C2_witness :
    (handleRegister ((handleRegister ((handleRegister (initServer net30 "SPK")
        reqA "peer-1" 0).2) reqB "peer-2" 10).2) reqA2 "peer-3" 99).1.success = true ∧
    (handleRegister ((handleRegister ((handleRegister (initServer net30 "SPK")
        reqA "peer-1" 0).2) reqB "peer-2" 10).2) reqA2 "peer-3" 99).1.peerId
      = (handleRegister (initServer net30 "SPK") reqA "peer-1" 0).1.peerId ∧
    (handleRegister ((handleRegister ((handleRegister (initServer net30 "SPK")
        reqA "peer-1" 0).2) reqB "peer-2" 10).2) reqA2 "peer-3" 99).1.assignedIP
      = (handleRegister (initServer net30 "SPK") reqA "peer-1" 0).1.assignedIP ∧
    (((handleRegister ((handleRegister (initServer net30 "SPK")
        reqA "peer-1" 0).2) reqB "peer-2" 10).2).peers.filter
      (fun q => q.publicKey == reqA.publicKey)).length = 1 :=
  C2_theorem (Steps.refl _) reqA reqA2 (by decide) "peer-1" 0 (fun _ => by decide)
    _ rfl (by decide)
    (Steps.tail (Steps.refl _) (Step.register _ reqB "peer-2" 10 (fun _ => by decide)))
    "peer-3" 99

/-- C9: re-registration frame. In any reachable state, a Register whose key
matches a stored record rewrites that record with only `hostname`, `os`,
`endpoint`, `last_heartbeat` and `online` refreshed — `id`, `public_key`,
`virtual_ip`, `allowed_ips` and `exit_node` are carried over verbatim (the
record-update expression touches no other field, in particular not
`exit_node`, whatever the request's flag says) — and the response returns
the record's existing id and address. -/
theorem C9_theorem {n : Net} {pub : String} {s : Server}
    (h : Steps (initServer n pub) s)
    (req : RegisterRequest) (newId : String) (now : Nat) (peer : Peer)
    (hmem : peer ∈ s.peers) (hkey : peer.publicKey = req.publicKey) :
    (handleRegister s req newId now).2.peers
      = savePeer s.peers
          { peer with hostname := req.hostname, os := req.os, endpoint := req.endpoint,
                      lastHeartbeat := now, online := true } ∧
    (handleRegister s req newId now).2.store
      = savePeer s.store
          { peer with hostname := req.hostname, os := req.os, endpoint := req.endpoint,
                      lastHeartbeat := now, online := true } ∧
    (handleRegister s req newId now).1.success = true ∧
    (handleRegister s req newId now).1.peerId = peer.id ∧
    (handleRegister s req newId now).1.assignedIP = peer.virtualIP := by
  have inv : InvCore s := invCore_reach h
  have hl : lookupKV s.peersByKey req.publicKey = some peer.id := by
    rw [← hkey]
    exact inv.byKey_complete peer hmem
  have hf : findById s.peers peer.id = some peer := findById_of_mem inv.ids_nodup hmem
  rw [handleRegister_existing s req newId now hl hf]
  exact ⟨rfl, rfl, rfl, rfl, rfl⟩

/-- C9 at a concrete state: KA registered once on 10.100.0.0/30, then
re-registers with different hostname, endpoint and a flipped exit-node
flag; the stored record keeps its id, key, address, allowed IPs and
exit-node value. -/
theorem C9_witness :
    ((handleRegister ((handleRegister (initServer net30 "SPK") reqA "peer-1" 0).2)
        reqA2 "peer-9" 77).2.peers
      = savePeer ((handleRegister (initServer net30 "SPK") reqA "peer-1" 0).2).peers
          { mkNewPeer reqA "peer-1" 174325761 0 with
            hostname := reqA2.hostname, os := reqA2.os, endpoint := reqA2.endpoint,
            lastHeartbeat := 77, online := true } ∧
    (handleRegister ((handleRegister (initServer net30 "SPK") reqA "peer-1" 0).2)
        reqA2 "peer-9" 77).2.store
      = savePeer ((handleRegister (initServer net30 "SPK") reqA "peer-1" 0).2).store
          { mkNewPeer reqA "peer-1" 174325761 0 with
            hostname := reqA2.hostname, os := reqA2.os, endpoint := reqA2.endpoint,
            lastHeartbeat := 77, online := true } ∧
    (handleRegister ((handleRegister (initServer net30 "SPK") reqA "peer-1" 0).2)
        reqA2 "peer-9" 77).1.success = true ∧
    (handleRegister ((handleRegister (initServer net30 "SPK") reqA "peer-1" 0).2)
        reqA2 "peer-9" 77).1.peerId = (mkNewPeer reqA "peer-1" 174325761 0).id ∧
    (handleRegister ((handleRegister (initServer net30 "SPK") reqA "peer-1" 0).2)
        reqA2 "peer-9" 77).1.assignedIP = (mkNewPeer reqA "peer-1" 174325761 0).virtualIP) :=
  C9_theorem
    (Steps.tail (Steps.refl _) (Step.register _ reqA "peer-1" 0 (fun _ => by decide)))
    reqA2 "peer-9" 77 (mkNewPeer reqA "peer-1" 174325761 0) (by decide) (by decide)

/-- The transitions produced by the two handlers that may set a peer
online. -/
def RegisterOrHeartbeatStep (s s' : Server) : Prop :=
  (∃ req newId now, s' = (handleRegister s req newId now).2) ∨
  (∃ req now, s' = (handleHeartbeat s req now).2)

/-- C7: sweeper behaviour. (1) Pointwise, a sweeper pass at time `now`
leaves every field of a peer unchanged except `online`, which becomes
`online && not (120 < now - last_heartbeat)` — i.e. it is cleared exactly
when the peer was online and silent for more than HeartbeatTimeout, and in
particular the sweeper never turns a peer online. (2) A pass maps this
update over the live table and the store. (3) Across any single transition
of the system from a coherent state, a peer that flips from offline to
online (same id, `online` false before, true after) does so only on a
Register or Heartbeat transition. -/
theorem C7_theorem :
    (∀ now q,
      (sweepPeer now q).online
          = (q.online && !(decide (HeartbeatTimeout < now - q.lastHeartbeat))) ∧
      ((sweepPeer now q).online = true → q.online = true) ∧
      (sweepPeer now q).id = q.id ∧ (sweepPeer now q).publicKey = q.publicKey ∧
      (sweepPeer now q).virtualIP = q.virtualIP ∧
      (sweepPeer now q).endpoint = q.endpoint ∧
      (sweepPeer now q).hostname = q.hostname ∧ (sweepPeer now q).os = q.os ∧
      (sweepPeer now q).allowedIPs = q.allowedIPs ∧
      (sweepPeer now q).exitNode = q.exitNode ∧
      (sweepPeer now q).lastHeartbeat = q.lastHeartbeat) ∧
    (∀ s now, (cleanupPass s now).peers = s.peers.map (sweepPeer now) ∧
      (cleanupPass s now).store = s.store.map (sweepPeer now)) ∧
    (∀ s s', InvCore s → Step s s' →
      (∃ q ∈ s.peers, ∃ q' ∈ s'.peers,
        q'.id = q.id ∧ q.online = false ∧ q'.online = true) →
      RegisterOrHeartbeatStep s s') := by
  refine ⟨?_, fun s now => ⟨rfl, rfl⟩, ?_⟩
  · intro now q
    obtain ⟨h1, h2, h3, h4, h5, h6, h7, h8, h9, h10⟩ := sweepPeer_spec now q
    refine ⟨h10, ?_, h1, h2, h3, h4, h5, h6, h7, h8, h9⟩
    intro hon
    rw [h10] at hon
    exact (Bool.and_eq_true_iff.mp hon).1
  · intro s s' inv hstep hflip
    cases hstep with
    | register req newId now hfresh =>
      exact Or.inl ⟨req, newId, now, rfl⟩
    | heartbeat req now =>
      exact Or.inr ⟨req, now, rfl⟩
    | sweep now =>
      obtain ⟨q, hq, q', hq', hid, hoff, hon⟩ := hflip
      obtain ⟨q0, hq0, hq0e⟩ := List.mem_map.mp hq'
      have hq0on : q0.online = true := by
        have h10 := (sweepPeer_spec now q0).2.2.2.2.2.2.2.2.2
        rw [← hq0e, h10] at hon
        exact (Bool.and_eq_true_iff.mp hon).1
      have hq0id : q0.id = q.id := by
        rw [← (sweepPeer_spec now q0).1, hq0e, hid]
      have : q0 = q := mem_id_unique inv.ids_nodup hq0 hq hq0id
      rw [this, hoff] at hq0on
      cases hq0on
    | restart =>
      obtain ⟨q, hq, q', hq', hid, hoff, hon⟩ := hflip
      rw [restartServer_peers s inv] at hq'
      have : q' = q := mem_id_unique inv.ids_nodup hq' hq hid
      rw [this, hoff] at hon
      cases hon

/-- C7 at concrete inputs: at time 200 the sweeper clears the online flag
of a peer whose last heartbeat was at 0 (silent for 200 s > 120 s), and
leaves its other fields intact. -/
theorem C7_witness :
    (sweepPeer 200 (mkNewPeer reqA "peer-1" 174325761 0)).online = false ∧
    (sweepPeer 200 (mkNewPeer reqA "peer-1" 174325761 0)).virtualIP = 174325761 :=
  ⟨Eq.trans ((C7_theorem.1 200 (mkNewPeer reqA "peer-1" 174325761 0)).1) (by decide),
   (C7_theorem.1 200 (mkNewPeer reqA "peer-1" 174325761 0)).2.2.2.2.1⟩

/-- C1 counterexample: on 10.100.0.0/30, KB registers at t=0 (peer-1) and
KA at t=150 (peer-2); the sweeper pass at t=200 marks peer-1 offline
(silent 200 s > 120 s) while peer-2 stays online; yet the peer list served
to peer-2 contains peer-1 with `online = false` — the handler filters only
the caller, never the online flag. -/
theorem C1_counterexample :
    (handlePeerList
        (cleanupPass
          ((handleRegister ((handleRegister (initServer net30 "SPK") reqB "peer-1" 0).2)
            reqA "peer-2" 150).2)
          200)
        "peer-2").map (fun l => l.map (fun q => (q.id, q.online)))
      = some [("peer-1", false)] := by decide

/-- C1 amended: `handlePeerList` for a registered caller returns exactly
the peers whose id differs from the caller's — every non-caller peer
appears, online or not; no online filter exists in the handler. -/
theorem C1_theorem (s : Server) (pid : String) (q0 : Peer)
    (hmem : q0 ∈ s.peers) (hid : q0.id = pid) :
    ∃ l, handlePeerList s pid = some l ∧
      ∀ q, q ∈ l ↔ q ∈ s.peers ∧ q.id ≠ pid := by
  unfold handlePeerList
  cases hf : findById s.peers pid with
  | none =>
    exact absurd hid (findById_none hf q0 hmem)
  | some peer =>
    refine ⟨_, rfl, ?_⟩
    intro q
    simp only [List.mem_filter, bne_iff_ne]

/-- C1 amended theorem at the counterexample's final state: the caller
peer-2 is registered there, so the list exists and holds exactly the
non-caller peers. -/
theorem C1_witness :
    ∃ l, handlePeerList
        (cleanupPass
          ((handleRegister ((handleRegister (initServer net30 "SPK") reqB "peer-1" 0).2)
            reqA "peer-2" 150).2)
          200)
        "peer-2" = some l ∧
      ∀ q, q ∈ l ↔
        q ∈ (cleanupPass
          ((handleRegister ((handleRegister (initServer net30 "SPK") reqB "peer-1" 0).2)
            reqA "peer-2" 150).2)
          200).peers ∧ q.id ≠ "peer-2" :=
  C1_theorem _ "peer-2" (sweepPeer 200 (mkNewPeer reqA "peer-2" 174325762 150))
    (by decide) (by decide)

/-- Modelled from the spec: membership in the standard base64 alphabet
(A-Z, a-z, 0-9, plus, slash). No counterpart exists in the server source —
`handleRegister` never inspects the key's syntax. -/
def b64Char (c : Char) : Bool :=
  (65 ≤ c.toNat && c.toNat ≤ 90) || (97 ≤ c.toNat && c.toNat ≤ 122) ||
  (48 ≤ c.toNat && c.toNat ≤ 57) || c == '+' || c == '/'

/-- Modelled from the spec: a well-formed WireGuard public key — the
standard base64 encoding of 32 bytes: 44 characters, the first 43 from the
base64 alphabet and a single trailing padding sign. -/
def keyValidSpec (k : String) : Bool :=
  k.length == 44 && (k.data.take 43).all b64Char && k.data.getD 43 ' ' == '='

/-- A register request whose key "*" is not base64 of any byte string. -/
def reqStar : RegisterRequest :=
  { publicKey := "*", hostname := "hx", os := "linux", endpoint := "",
    requestIP := false, exitNode := false, allowedIPs := [] }

/-- C4 counterexample: the key "*" is not a valid base64 encoding of 32
bytes, yet Register with it succeeds on a fresh 10.100.0.0/30 coordinator:
the response carries success, a peer record with key "*" enters the
registry, and 10.100.0.1 is allocated — no InvalidRequest rejection exists
in the handler. -/
theorem C4_counterexample :
    keyValidSpec reqStar.publicKey = false ∧
    (handleRegister (initServer net30 "SPK") reqStar "peer-1" 0).1.success = true ∧
    ((handleRegister (initServer net30 "SPK") reqStar "peer-1" 0).2.peers.map
      (fun q => (q.id, q.publicKey, q.virtualIP))) = [("peer-1", "*", 174325761)] ∧
    IsAllocated (handleRegister (initServer net30 "SPK") reqStar "peer-1" 0).2.alloc
      174325761 = true := by decide

/-- C4 amended: `handleRegister` performs no validation of `public_key`
whatsoever. For every request — whether or not its key is a well-formed
32-byte base64 value — if the key is absent from the index and the
allocator yields an address, registration succeeds with empty error, the
new peer record (carrying the key verbatim) is stored, and the address is
marked allocated. -/
theorem C4_theorem (s : Server) (req : RegisterRequest) (newId : String) (now : Nat)
    {ip : Nat} {alloc' : IPAllocator}
    (hl : lookupKV s.peersByKey req.publicKey = none)
    (ha : AllocateIP s.alloc = some (.ok ip, alloc')) :
    (handleRegister s req newId now).1.success = true ∧
    (handleRegister s req newId now).1.error = "" ∧
    mkNewPeer req newId ip now ∈ (handleRegister s req newId now).2.peers ∧
    IsAllocated (handleRegister s req newId now).2.alloc ip = true := by
  rw [handleRegister_new s req newId now hl ha]
  refine ⟨rfl, rfl, savePeer_mem_self, ?_⟩
  show alloc'.allocated ip = true
  exact (((allocLoop_spec _ _ _ _ ha).2.2.1) ip rfl).2.2.2.1

/-- C4 amended theorem at the counterexample's inputs: the syntactically
invalid key "*" is accepted on the fresh /30 coordinator. -/
theorem C4_witness :
    (handleRegister (initServer net30 "SPK") reqStar "peer-1" 0).1.success = true ∧
    (handleRegister (initServer net30 "SPK") reqStar "peer-1" 0).1.error = "" ∧
    mkNewPeer reqStar "peer-1" 174325761 0
      ∈ (handleRegister (initServer net30 "SPK") reqStar "peer-1" 0).2.peers ∧
    IsAllocated (handleRegister (initServer net30 "SPK") reqStar "peer-1" 0).2.alloc
      174325761 = true :=
  C4_theorem (initServer net30 "SPK") reqStar "peer-1" 0 rfl rfl

/-- `wireguard.PeerConfig` (the fields `syncPeers` fills; `KeepAlive` in
seconds). -/
structure PeerConfig where
  publicKey : String
  endpoint : String
  allowedIPs : List String
  keepAlive : Nat
deriving DecidableEq

/-- One entry of the data-plane peer table. -/
structure WgPeer where
  endpoint : Option String
  allowedIPs : List String
  keepAlive : Nat
deriving DecidableEq

/-- Modelled from the spec: the DataPlane `AddPeer` contract of section
6.2 — an idempotent upsert keyed by the public key, replacing endpoint,
allowed IPs and keepalive; an empty endpoint leaves the entry's endpoint
unset (interface.go lines 104-110 keep a nil endpoint for ""). The device
peer table itself is outside the repository's code, so it is the spec's
key-indexed map. -/
def addPeer (dp : String → Option WgPeer) (cfg : PeerConfig) : String → Option WgPeer :=
  fun k =>
    if k = cfg.publicKey then
      some { endpoint := if cfg.endpoint = "" then none else some cfg.endpoint,
             allowedIPs := cfg.allowedIPs, keepAlive := cfg.keepAlive }
    else dp k

/-- The `wireguard.PeerConfig` literal built in `syncPeers` (part_003
lines 440-445): key, endpoint and allowed IPs verbatim from the listed
peer, keepalive 25 s. -/
def peerConfigOf (q : Peer) : PeerConfig :=
  { publicKey := q.publicKey, endpoint := q.endpoint,
    allowedIPs := q.allowedIPs, keepAlive := 25 }

/-- The reconcile loop of `syncPeers` (part_003 lines 435-453) over an
already-fetched peer list: peers with `Online == false` are skipped,
every other peer is upserted into the data plane. -/
def syncPeers (dp : String → Option WgPeer) (peers : List Peer) : String → Option WgPeer :=
  peers.foldl (fun acc q => if q.online then addPeer acc (peerConfigOf q) else acc) dp

theorem syncPeers_frame (peers : List Peer) :
    ∀ (dp : String → Option WgPeer) (k : String), (∀ q ∈ peers, q.publicKey ≠ k) →
    syncPeers dp peers k = dp k := by
  induction peers with
  | nil => intro dp k _; rfl
  | cons r t ih =>
    intro dp k h
    have hstep : syncPeers dp (r :: t)
        = syncPeers (if r.online = true then addPeer dp (peerConfigOf r) else dp) t := rfl
    rw [hstep, ih _ k (fun x hx => h x (List.mem_cons_of_mem _ hx))]
    by_cases hon : r.online = true
    · rw [if_pos hon]
      show addPeer dp (peerConfigOf r) k = dp k
      unfold addPeer
      rw [if_neg (fun heq => h r (List.mem_cons_self r t) heq.symm)]
    · rw [if_neg hon]

/-- C6: one full reconcile from any data-plane state and any fetched peer
list (with the registry-guaranteed key uniqueness): every listed peer with
`online == true` ends with a data-plane entry under its public key holding
exactly the listed endpoint (unset when empty), the listed allowed IPs,
and keepalive 25 s; for a listed peer with `online == false` the data
plane is left exactly as it was at that key — offline peers are never
upserted. -/
theorem C6_theorem (dp : String → Option WgPeer) (peers : List Peer)
    (hnd : (peers.map (fun q => q.publicKey)).Nodup) :
    ∀ q ∈ peers,
      (q.online = true → syncPeers dp peers q.publicKey
        = some { endpoint := if q.endpoint = "" then none else some q.endpoint,
                 allowedIPs := q.allowedIPs, keepAlive := 25 }) ∧
      (q.online = false → syncPeers dp peers q.publicKey = dp q.publicKey) := by
  revert hnd
  induction peers generalizing dp with
  | nil =>
    intro _ q hq
    cases hq
  | cons r t ih =>
    intro hnd q hq
    rw [List.map_cons, List.nodup_cons] at hnd
    obtain ⟨hnot, hnd2⟩ := hnd
    have hstep : syncPeers dp (r :: t)
        = syncPeers (if r.online = true then addPeer dp (peerConfigOf r) else dp) t := rfl
    have hfr : ∀ x ∈ t, x.publicKey ≠ r.publicKey :=
      fun x hx heq => hnot (List.mem_map.mpr ⟨x, hx, heq⟩)
    cases hq with
    | head =>
      constructor
      · intro hon
        rw [hstep, syncPeers_frame t _ _ hfr, if_pos hon]
        show addPeer dp (peerConfigOf r) r.publicKey = _
        unfold addPeer
        rw [if_pos (show r.publicKey = (peerConfigOf r).publicKey from rfl)]
        rfl
      · intro hoff
        rw [hstep, syncPeers_frame t _ _ hfr, if_neg (by rw [hoff]; exact Bool.false_ne_true)]
    | tail _ hq2 =>
      have hq' := ih (if r.online = true then addPeer dp (peerConfigOf r) else dp) hnd2 q hq2
      constructor
      · intro hon
        rw [hstep]
        exact hq'.1 hon
      · intro hoff
        rw [hstep, hq'.2 hoff]
        by_cases hron : r.online = true
        · rw [if_pos hron]
          show addPeer dp (peerConfigOf r) q.publicKey = dp q.publicKey
          unfold addPeer
          rw [if_neg (show ¬ (q.publicKey = (peerConfigOf r).publicKey) from
            fun heq => hnot (List.mem_map.mpr ⟨q, hq2, heq⟩))]
        · rw [if_neg hron]

/-- C6 at a concrete reconcile from an empty data plane over a two-entry
list: the online peer KA (endpoint set) lands in the table with its
allowed IPs and keepalive 25, the offline peer KB is not upserted. -/
theorem C6_witness :
    syncPeers (fun _ => none)
        [mkNewPeer reqA "peer-1" 174325761 0,
         sweepPeer 200 (mkNewPeer reqB "peer-2" 174325762 0)] "KA"
      = some { endpoint := some "1.2.3.4:51820",
               allowedIPs := ["10.100.0.1/32"], keepAlive := 25 } ∧
    syncPeers (fun _ => none)
        [mkNewPeer reqA "peer-1" 174325761 0,
         sweepPeer 200 (mkNewPeer reqB "peer-2" 174325762 0)] "KB"
      = none := by
  have h1 := (C6_theorem (fun _ => none)
    [mkNewPeer reqA "peer-1" 174325761 0,
     sweepPeer 200 (mkNewPeer reqB "peer-2" 174325762 0)] (by decide)
    (mkNewPeer reqA "peer-1" 174325761 0) (by decide)).1 (by decide)
  have h2 := (C6_theorem (fun _ => none)
    [mkNewPeer reqA "peer-1" 174325761 0,
     sweepPeer 200 (mkNewPeer reqB "peer-2" 174325762 0)] (by decide)
    (sweepPeer 200 (mkNewPeer reqB "peer-2" 174325762 0)) (by decide)).2 (by decide)
  refine ⟨?_, ?_⟩
  · rw [show ("KA" : String) = (mkNewPeer reqA "peer-1" 174325761 0).publicKey from rfl, h1]
    decide
  · rw [show ("KB" : String)
        = (sweepPeer 200 (mkNewPeer reqB "peer-2" 174325762 0)).publicKey from by decide, h2]
